import Mathlib

/-! Bus reservation system (`src/buses.cpp`).

A shallow embedding of `struct Bus` and `class BusReservationSystem`, followed by
theorems about listing, searching, booking and viewing.

Modelling conventions.

* `std::vector<T>` is a `List T`; `operator[]` is the checked access `vecGet`, which
  yields `none` outside `0 .. size-1` (undefined behaviour in the source), so an
  out-of-range access shows up as the outcome `outOfBounds` instead of being hidden.
* `int` values are `Int`; `size_t` values are `Nat`.  Every `int`/`size_t` comparison
  of the source is guarded by a preceding `< 1` or `<= 0` test, so the converted
  operand is positive and the comparison is the mathematical one.
* `double` prices are exact rationals.
* `std::string` is `String`, handled through its list of characters.
* `cout` is a list of `Out` lines; `cin` is the list of integers that the successive
  extractions into `seatsToBook[i]` yield.  The values extracted into `busIndex` and
  `numSeats` are parameters.
-/

namespace BusReservation

/-! ## Data model -/

/-- Record `struct Bus` (lines 10-20). -/
structure Bus where
  busNumber : String
  destination : String
  sourceCity : String
  seats : List Bool
  ticketPrice : Rat
deriving DecidableEq

/-- Constructor `Bus::Bus` (lines 18-19): `seats(totalSeats, false)`.  A negative
`totalSeats` converts to a size above `max_size`, and the vector constructor throws:
`none`. -/
def Bus.Bus (num dest source : String) (totalSeats : Int) (price : Rat) : Option Bus :=
  if totalSeats < 0 then none
  else some ⟨num, dest, source, List.replicate totalSeats.toNat false, price⟩

/-- Checked `v[i]` for an `int` index expression. -/
def vecGet {α : Type} (v : List α) (i : Int) : Option α :=
  if i < 0 then none else v[i.toNat]?

/-- One table row as printed by `displayBuses` and `searchBuses` (lines 66-69, 95-98). -/
structure Row where
  index : Nat
  busNumber : String
  sourceCity : String
  destination : String
  totalSeats : Nat
  bookedSeats : Nat
  ticketPrice : Rat
deriving DecidableEq

/-- The lines written to `cout`. -/
inductive Out where
  | availableBuses
  | line (ch : Char) (length : Nat)
  | tableHeader
  | row (r : Row)
  | searching (sourceCity destination : String)
  | noBusesFound
  | promptBookIndex
  | promptViewIndex
  | invalidBusIndex
  | promptNumSeats
  | invalidNumSeats
  | promptSeatNumbers
  | seatRejected (n : Int)
  | bookingSuccessful (cost : Rat)
  | busDetails (busNumber destination sourceCity : String) (totalSeats bookedSeats : Nat)
      (ticketPrice : Rat)
  | seatStatusTitle (busNumber : String)
  | seatStatusHeader
  | seatLine (seatNo : Nat) (booked : Bool)
deriving DecidableEq

/-! ## String helpers -/

/-- Function `::tolower` in the "C" locale: `A`-`Z` map to `a`-`z`, all else is kept. -/
def tolower (c : Char) : Char :=
  if 65 ≤ c.toNat ∧ c.toNat ≤ 90 then Char.ofNat (c.toNat + 32) else c

/-- Method `toLower` (lines 28-33). -/
def toLower (str : String) : String :=
  ⟨str.data.map tolower⟩

/-- The character set `" \t\n\r"` of `trim`. -/
def trimSet : List Char := [' ', '\t', '\n', '\r']

/-- Method `find_first_not_of`: the first position whose character is not in `set`,
`none` for `npos`. -/
def findFirstNotOf (set : List Char) : List Char → Option Nat
  | [] => none
  | c :: cs =>
    if c ∈ set then (findFirstNotOf set cs).map (· + 1) else some 0

/-- Method `find_last_not_of`: the last position whose character is not in `set`,
`none` for `npos`. -/
def findLastNotOf (set : List Char) : List Char → Option Nat
  | [] => none
  | c :: cs =>
    match findLastNotOf set cs with
    | some j => some (j + 1)
    | none => if c ∈ set then none else some 0

/-- The body of `trim` on the characters of `str`: `str.substr(start, end - start + 1)`,
or the empty string when either search gives `npos`. -/
def trimChars (str : List Char) : List Char :=
  match findFirstNotOf trimSet str, findLastNotOf trimSet str with
  | some start, some e => (str.drop start).take (e - start + 1)
  | _, _ => []

/-- Method `trim` (lines 36-41). -/
def trim (str : String) : String :=
  ⟨trimChars str.data⟩

/-! ## Listing and search -/

/-- Method `countBookedSeats` (lines 180-189). -/
def countBookedSeats (bus : Bus) : Nat :=
  bus.seats.foldl (fun count seat => if seat then count + 1 else count) 0

/-- The row printed for `buses[i]`: index `i + 1`, then the trip's fields. -/
def mkRow (i : Nat) (bus : Bus) : Row :=
  ⟨i + 1, bus.busNumber, bus.sourceCity, bus.destination, bus.seats.length,
    countBookedSeats bus, bus.ticketPrice⟩

/-- The loop of `displayBuses` (lines 63-70), from index `i` over the trips left. -/
def displayLoop : Nat → List Bus → List Row
  | _, [] => []
  | i, bus :: rest => mkRow i bus :: displayLoop (i + 1) rest

/-- Method `displayBuses` (lines 54-72): the catalog is not written. -/
def displayBuses (buses : List Bus) : List Out :=
  [Out.availableBuses, Out.line '=' 105, Out.tableHeader, Out.line '-' 105]
    ++ (displayLoop 0 buses).map Out.row ++ [Out.line '=' 105]

/-- The test of line 93 for one trip against the prepared query strings. -/
def routeMatches (sourceLower destLower : String) (bus : Bus) : Bool :=
  toLower (trim bus.sourceCity) == sourceLower && toLower (trim bus.destination) == destLower

/-- The loop of `searchBuses` (lines 86-101), from index `i` over the trips left:
the printed rows and the flag `found`. -/
def searchLoop (sourceLower destLower : String) : Nat → List Bus → List Row × Bool
  | _, [] => ([], false)
  | i, bus :: rest =>
    let r := searchLoop sourceLower destLower (i + 1) rest
    if routeMatches sourceLower destLower bus then (mkRow i bus :: r.1, true) else r

/-- The rows `searchBuses` prints for a query. -/
def searchRows (buses : List Bus) (sourceCity destination : String) : List Row :=
  (searchLoop (toLower (trim sourceCity)) (toLower (trim destination)) 0 buses).1

/-- Method `searchBuses` (lines 74-107): the catalog is not written. -/
def searchBuses (buses : List Bus) (sourceCity destination : String) : List Out :=
  let r := searchLoop (toLower (trim sourceCity)) (toLower (trim destination)) 0 buses
  [Out.searching sourceCity destination, Out.line '=' 105, Out.tableHeader, Out.line '-' 105]
    ++ r.1.map Out.row
    ++ (if !r.2 then [Out.noBusesFound] else [])
    ++ [Out.line '=' 105]

/-- The loop of `displaySeatStatus` (lines 198-201). -/
def seatLines : Nat → List Bool → List Out
  | _, [] => []
  | i, seat :: rest => Out.seatLine (i + 1) seat :: seatLines (i + 1) rest

/-- Method `displaySeatStatus` (lines 191-203). -/
def displaySeatStatus (bus : Bus) : List Out :=
  [Out.seatStatusTitle bus.busNumber, Out.line '-' 30, Out.seatStatusHeader, Out.line '-' 30]
    ++ seatLines 0 bus.seats ++ [Out.line '-' 30]

/-! ## Booking -/

/-- How the validation loop ended. -/
inductive ReadStatus where
  | filled
  | stalled
  | outOfBounds
deriving DecidableEq

/-- State after the validation loop: the filled slots of `seatsToBook`, the rejection
lines, and the unread input. -/
structure Reading where
  seatsToBook : List Int
  out : List Out
  cin : List Int
  status : ReadStatus
deriving DecidableEq

/-- The validation loop (lines 138-146) with `slots` slots still to fill.  A rejected
entry prints its line and the slot is read again (`--i`); an accepted entry fills the
slot.  When the input is used up with a slot unfilled, the extraction fails, the slot
keeps a rejected value (`0` or the last rejected entry) and the loop re-prompts
without end: `stalled`. -/
def readSeats (seats : List Bool) : List Int → Nat → Reading
  | cin, 0 => ⟨[], [], cin, .filled⟩
  | [], _ + 1 => ⟨[], [], [], .stalled⟩
  | n :: cin, slots + 1 =>
    if n < 1 ∨ n > seats.length then
      let r := readSeats seats cin (slots + 1)
      { r with out := Out.seatRejected n :: r.out }
    else
      match vecGet seats (n - 1) with
      | none => ⟨[], [], cin, .outOfBounds⟩
      | some true =>
        let r := readSeats seats cin (slots + 1)
        { r with out := Out.seatRejected n :: r.out }
      | some false =>
        let r := readSeats seats cin slots
        { r with seatsToBook := n :: r.seatsToBook }

/-- One store `bus.seats[seat - 1] = true`, with the value the entry held just before. -/
structure Write where
  seat : Int
  prior : Bool
deriving DecidableEq

/-- The marking loop (lines 148-151): the seats afterwards and the stores performed,
`none` on an out-of-range store. -/
def markSeats : List Bool → List Int → Option (List Bool × List Write)
  | seats, [] => some (seats, [])
  | seats, seat :: rest =>
    match vecGet seats (seat - 1) with
    | none => none
    | some prior =>
      match markSeats (seats.set (seat - 1).toNat true) rest with
      | none => none
      | some (seats', writes) => some (seats', ⟨seat, prior⟩ :: writes)

/-- How `bookSeats` ended. -/
inductive Outcome where
  | invalidBusIndex
  | invalidNumSeats
  | stalled
  | outOfBounds
  | booked (cost : Rat)
deriving DecidableEq

/-- Everything observable of one `bookSeats` call. -/
structure Booking where
  buses : List Bus
  out : List Out
  cin : List Int
  seatsToBook : List Int
  writes : List Write
  outcome : Outcome
deriving DecidableEq

/-- Method `bookSeats` (lines 109-154). -/
def bookSeats (buses : List Bus) (busIndex numSeats : Int) (cin : List Int) : Booking :=
  let out0 := displayBuses buses ++ [Out.promptBookIndex]
  if busIndex < 1 ∨ busIndex > buses.length then
    ⟨buses, out0 ++ [Out.invalidBusIndex], cin, [], [], .invalidBusIndex⟩
  else
    match vecGet buses (busIndex - 1) with
    | none => ⟨buses, out0, cin, [], [], .outOfBounds⟩
    | some bus =>
      let out1 := out0 ++ displaySeatStatus bus ++ [Out.promptNumSeats]
      if numSeats ≤ 0 ∨ numSeats > bus.seats.length then
        ⟨buses, out1 ++ [Out.invalidNumSeats], cin, [], [], .invalidNumSeats⟩
      else
        let r := readSeats bus.seats cin numSeats.toNat
        let out2 := out1 ++ [Out.promptSeatNumbers] ++ r.out
        match r.status with
        | .stalled => ⟨buses, out2, r.cin, r.seatsToBook, [], .stalled⟩
        | .outOfBounds => ⟨buses, out2, r.cin, r.seatsToBook, [], .outOfBounds⟩
        | .filled =>
          match markSeats bus.seats r.seatsToBook with
          | none => ⟨buses, out2, r.cin, r.seatsToBook, [], .outOfBounds⟩
          | some (seats', writes) =>
            ⟨buses.set (busIndex - 1).toNat { bus with seats := seats' },
              out2 ++ [Out.bookingSuccessful (numSeats * bus.ticketPrice)],
              r.cin, r.seatsToBook, writes, .booked (numSeats * bus.ticketPrice)⟩

/-- How `viewReservations` ended. -/
inductive ViewOutcome where
  | invalidBusIndex
  | outOfBounds
  | shown
deriving DecidableEq

/-- Everything observable of one `viewReservations` call. -/
structure Viewing where
  buses : List Bus
  out : List Out
  outcome : ViewOutcome
deriving DecidableEq

/-- Method `viewReservations` (lines 156-177): the catalog is read through a
`const Bus &` and is not written. -/
def viewReservations (buses : List Bus) (busIndex : Int) : Viewing :=
  let out0 := displayBuses buses ++ [Out.promptViewIndex]
  if busIndex < 1 ∨ busIndex > buses.length then
    ⟨buses, out0 ++ [Out.invalidBusIndex], .invalidBusIndex⟩
  else
    match vecGet buses (busIndex - 1) with
    | none => ⟨buses, out0, .outOfBounds⟩
    | some bus =>
      ⟨buses,
        out0 ++ [Out.busDetails bus.busNumber bus.destination bus.sourceCity bus.seats.length
            (countBookedSeats bus) bus.ticketPrice] ++ displaySeatStatus bus,
        .shown⟩

/-- Method `addBus` (lines 49-52): `none` when the `Bus` constructor throws. -/
def addBus (buses : List Bus) (busNumber destination sourceCity : String) (totalSeats : Int)
    (price : Rat) : Option (List Bus) :=
  (Bus.Bus busNumber destination sourceCity totalSeats price).map (fun bus => buses ++ [bus])

/-- The catalog built at the start of `main` (lines 211-214). -/
def mainCatalog : List Bus :=
  [⟨"123A", "New York", "Boston", List.replicate 50 false, 30⟩,
   ⟨"456B", "Los Angeles", "San Francisco", List.replicate 40 false, 25⟩,
   ⟨"789C", "Chicago", "Detroit", List.replicate 30 false, 20⟩,
   ⟨"012D", "New York", "Boston", List.replicate 50 false, 28⟩]

/-- One call on the system, as dispatched by the menu of `main` (lines 228-256), with
the input it consumes. -/
inductive Op where
  | addBus (busNumber destination sourceCity : String) (totalSeats : Int) (price : Rat)
  | displayBuses
  | searchBuses (sourceCity destination : String)
  | bookSeats (busIndex numSeats : Int) (cin : List Int)
  | viewReservations (busIndex : Int)

/-- The catalog after one call that returns; `none` when the call does not return
(the constructor throws, the re-prompt loop never ends, or an access is out of range). -/
def Op.step : Op → List Bus → Option (List Bus)
  | .addBus num dest source totalSeats price, buses =>
    BusReservation.addBus buses num dest source totalSeats price
  | .displayBuses, buses => some buses
  | .searchBuses _ _, buses => some buses
  | .bookSeats busIndex numSeats cin, buses =>
    let b := BusReservation.bookSeats buses busIndex numSeats cin
    match b.outcome with
    | .stalled => none
    | .outOfBounds => none
    | _ => some b.buses
  | .viewReservations busIndex, buses =>
    match (BusReservation.viewReservations buses busIndex).outcome with
    | .outOfBounds => none
    | _ => some buses

/-- The catalog after a sequence of calls that all return. -/
def run : List Op → List Bus → Option (List Bus)
  | [], buses => some buses
  | op :: ops, buses =>
    match op.step buses with
    | none => none
    | some buses' => run ops buses'

/-- An entry the validation loop accepts: in `1 .. seats.length` with its seat
unbooked in the seats the loop reads. -/
def acceptable (seats : List Bool) (n : Int) : Bool :=
  decide (1 ≤ n) && decide (n ≤ (seats.length : Int)) && (seats[(n - 1).toNat]? == some false)

/-- The seats after storing `true` at each listed seat number in turn. -/
def markAll (seats : List Bool) (seatNumbers : List Int) : List Bool :=
  seatNumbers.foldl (fun s n => s.set (n - 1).toNat true) seats

/-- Seat number `n` of the trip at 1-based position `p` is booked. -/
def seatBooked (buses : List Bus) (p n : Int) : Prop :=
  ∃ bus, vecGet buses (p - 1) = some bus ∧ vecGet bus.seats (n - 1) = some true

/-- The table rows among the lines of an output. -/
def rowsOf (out : List Out) : List Row :=
  out.filterMap (fun o => match o with
    | .row r => some r
    | _ => none)

/-- Seats `s'` have the length of `s` and every seat booked in `s` is booked in `s'`. -/
def seatsGrow (s s' : List Bool) : Prop :=
  s'.length = s.length ∧ ∀ j : Nat, s[j]? = some true → s'[j]? = some true

/-- Every trip of `old` is still at its index in `new`, with its seats grown. -/
def catalogGrows (old new : List Bus) : Prop :=
  ∀ (i : Nat) (bus : Bus), old[i]? = some bus →
    ∃ bus', new[i]? = some bus' ∧ seatsGrow bus.seats bus'.seats

/-- Characters `a` and `b` are the same up to the case of an ASCII letter. -/
def caseVariant (a b : Char) : Prop :=
  a = b ∨ (65 ≤ a.toNat ∧ a.toNat ≤ 90 ∧ b.toNat = a.toNat + 32)
    ∨ (65 ≤ b.toNat ∧ b.toNat ≤ 90 ∧ a.toNat = b.toNat + 32)

/-- Query `q'` is `q` with other leading and trailing blanks (the characters `trim`
strips: space, tab, line feed, carriage return) and with letters in another case. -/
def queryVariant (q q' : String) : Prop :=
  ∃ l core r l' core' r', q.data = l ++ core ++ r ∧ q'.data = l' ++ core' ++ r' ∧
    (∀ c ∈ l ++ r ++ l' ++ r', c ∈ trimSet) ∧ List.Forall₂ caseVariant core core'

/-- The catalog of the end-to-end scenario: the single trip
`("123A", "New York", "Boston", 50, 30.0)`. -/
def seedCatalog : List Bus :=
  [⟨"123A", "New York", "Boston", List.replicate 50 false, 30⟩]

/-- The seat numbers of the rejection lines of an output, in order. -/
def rejectedOf (out : List Out) : List Int :=
  out.filterMap (fun o => match o with
    | .seatRejected n => some n
    | _ => none)

/-- The number of unbooked seats of a trip. -/
def freeSeats (bus : Bus) : Nat :=
  bus.seats.count false

/-- A call that only reads the catalog: listing, search, or viewing reservations. -/
def Op.isRead : Op → Bool
  | .displayBuses => true
  | .searchBuses _ _ => true
  | .viewReservations _ => true
  | _ => false

/-- Conversion of an `int` to a `size_t` of `w` bits, as done by the usual arithmetic
conversions before an `int` is compared with a `size()`. -/
def toSizeT (w : Nat) (i : Int) : Nat :=
  (i % 2 ^ w).toNat

/-- The guard `x < 1 || x > v.size()` as the source evaluates it: the second operand is
compared after conversion to `size_t`. -/
def outsideGuard (w : Nat) (x : Int) (size : Nat) : Bool :=
  decide (x < 1) || decide (toSizeT w x > size)

/-! ## Lemmas on the checked access -/

theorem vecGet_eq_some_iff {α : Type} (v : List α) (i : Int) (a : α) :
    vecGet v i = some a ↔ 0 ≤ i ∧ v[i.toNat]? = some a := by
  unfold vecGet
  split_ifs with h
  · constructor
    · intro h1; cases h1
    · rintro ⟨h1, _⟩; omega
  · constructor
    · intro h1; exact ⟨by omega, h1⟩
    · rintro ⟨_, h1⟩; exact h1

theorem vecGet_in_range {α : Type} (v : List α) (n : Int) (h1 : 1 ≤ n)
    (h2 : n ≤ (v.length : Int)) : ∃ a, vecGet v (n - 1) = some a ∧ v[(n - 1).toNat]? = some a := by
  have hlt : (n - 1).toNat < v.length := by omega
  refine ⟨v[(n - 1).toNat], ?_, ?_⟩
  · rw [vecGet_eq_some_iff]
    exact ⟨by omega, List.getElem?_eq_getElem hlt⟩
  · exact List.getElem?_eq_getElem hlt

theorem vecGet_range {α : Type} (v : List α) (i : Int) (a : α) (h : vecGet v i = some a) :
    0 ≤ i ∧ i < (v.length : Int) := by
  rw [vecGet_eq_some_iff] at h
  obtain ⟨h0, h1⟩ := h
  have := (List.getElem?_eq_some_iff.mp h1).1
  exact ⟨h0, by omega⟩

/-! ## Lemmas on the validation loop -/

theorem acceptable_iff (seats : List Bool) (n : Int) :
    acceptable seats n = true ↔
      1 ≤ n ∧ n ≤ (seats.length : Int) ∧ seats[(n - 1).toNat]? = some false := by
  simp [acceptable, and_assoc]

theorem readSeats_zero (seats : List Bool) (cin : List Int) :
    readSeats seats cin 0 = ⟨[], [], cin, .filled⟩ := by
  cases cin <;> rfl

theorem readSeats_cons (seats : List Bool) (n : Int) (cin : List Int) (slots : Nat) :
    readSeats seats (n :: cin) (slots + 1) =
      if acceptable seats n then
        { readSeats seats cin slots with
          seatsToBook := n :: (readSeats seats cin slots).seatsToBook }
      else
        { readSeats seats cin (slots + 1) with
          out := Out.seatRejected n :: (readSeats seats cin (slots + 1)).out } := by
  rw [readSeats]
  by_cases hr : n < 1 ∨ n > (seats.length : Int)
  · have hacc : acceptable seats n = false := by
      rw [← Bool.not_eq_true, acceptable_iff]
      omega
    simp [hr, hacc]
  · have h1 : 1 ≤ n := by omega
    have h2 : n ≤ (seats.length : Int) := by omega
    obtain ⟨b, hb, hb2⟩ := vecGet_in_range seats n h1 h2
    rw [if_neg hr, hb]
    cases b
    · have hacc : acceptable seats n = true := by
        rw [acceptable_iff]; exact ⟨h1, h2, hb2⟩
      simp [hacc]
    · have hacc : acceptable seats n = false := by
        rw [← Bool.not_eq_true, acceptable_iff, hb2]
        simp
      simp [hacc]

theorem readSeats_seatsToBook (seats : List Bool) (cin : List Int) (slots : Nat) :
    (readSeats seats cin slots).seatsToBook = (cin.filter (acceptable seats)).take slots := by
  induction cin generalizing slots with
  | nil => cases slots <;> simp [readSeats]
  | cons n cin ih =>
    cases slots with
    | zero => simp [readSeats_zero]
    | succ slots =>
      rw [readSeats_cons]
      by_cases hacc : acceptable seats n = true
      · simp [hacc, ih]
      · simp [hacc, ih]

theorem readSeats_status (seats : List Bool) (cin : List Int) (slots : Nat) :
    (readSeats seats cin slots).status =
      if slots ≤ (cin.filter (acceptable seats)).length then .filled else .stalled := by
  induction cin generalizing slots with
  | nil => cases slots <;> simp [readSeats]
  | cons n cin ih =>
    cases slots with
    | zero => simp [readSeats_zero]
    | succ slots =>
      rw [readSeats_cons]
      by_cases hacc : acceptable seats n = true
      · simp [hacc, ih]
      · simp [hacc, ih]

theorem readSeats_used (seats : List Bool) (cin : List Int) (slots : Nat) :
    ∃ used, cin = used ++ (readSeats seats cin slots).cin ∧
      (readSeats seats cin slots).out =
        (used.filter (fun n => !acceptable seats n)).map Out.seatRejected ∧
      (readSeats seats cin slots).seatsToBook = used.filter (acceptable seats) := by
  induction cin generalizing slots with
  | nil => exact ⟨[], by cases slots <;> simp [readSeats]⟩
  | cons n cin ih =>
    cases slots with
    | zero => exact ⟨[], by simp [readSeats_zero]⟩
    | succ slots =>
      rw [readSeats_cons]
      by_cases hacc : acceptable seats n = true
      · obtain ⟨used, h1, h2, h3⟩ := ih slots
        refine ⟨n :: used, ?_, ?_, ?_⟩
        · simp only [hacc, if_true, List.cons_append]; rw [← h1]
        · simp [hacc, h2]
        · simp [hacc, h3]
      · obtain ⟨used, h1, h2, h3⟩ := ih (slots + 1)
        refine ⟨n :: used, ?_, ?_, ?_⟩
        · simp only [hacc, List.cons_append]; simp; exact h1
        · simp [hacc, h2]
        · simp [hacc, h3]

theorem readSeats_mem_range (seats : List Bool) (cin : List Int) (slots : Nat) (n : Int)
    (h : n ∈ (readSeats seats cin slots).seatsToBook) :
    1 ≤ n ∧ n ≤ (seats.length : Int) ∧ seats[(n - 1).toNat]? = some false := by
  rw [readSeats_seatsToBook] at h
  have h1 := List.mem_of_mem_take h
  rw [List.mem_filter] at h1
  exact (acceptable_iff seats n).mp h1.2

/-! ## Lemmas on the marking loop -/

theorem markAll_length (seats : List Bool) (l : List Int) :
    (markAll seats l).length = seats.length := by
  induction l generalizing seats with
  | nil => rfl
  | cons n l ih =>
    show (markAll (seats.set (n - 1).toNat true) l).length = seats.length
    rw [ih, List.length_set]

theorem markAll_cons (seats : List Bool) (n : Int) (l : List Int) :
    markAll seats (n :: l) = markAll (seats.set (n - 1).toNat true) l := rfl

theorem markAll_getElem? (seats : List Bool) (l : List Int) (j : Nat) :
    (markAll seats l)[j]? = some true ↔
      seats[j]? = some true ∨ (j < seats.length ∧ ∃ n ∈ l, (n - 1).toNat = j) := by
  induction l generalizing seats with
  | nil => simp [markAll]
  | cons n l ih =>
    rw [markAll_cons, ih, List.length_set]
    by_cases hj : (n - 1).toNat = j
    · subst hj
      by_cases hlt : (n - 1).toNat < seats.length
      · have h1 : (seats.set (n - 1).toNat true)[(n - 1).toNat]? = some true := by
          exact List.getElem?_set_self hlt
        constructor
        · intro _; right; exact ⟨hlt, n, List.mem_cons_self _ _, rfl⟩
        · intro _; left; exact h1
      · have h2 : seats[(n - 1).toNat]? = none := List.getElem?_eq_none (by omega)
        have h1 : (seats.set (n - 1).toNat true)[(n - 1).toNat]? = none :=
          List.getElem?_eq_none (by rw [List.length_set]; omega)
        rw [h1, h2]
        constructor
        · rintro (h | ⟨h, _⟩)
          · cases h
          · exact absurd h hlt
        · rintro (h | ⟨h, _⟩)
          · cases h
          · exact absurd h hlt
    · rw [List.getElem?_set_ne hj]
      constructor
      · rintro (h | ⟨h, m, hm, hmj⟩)
        · left; exact h
        · right; exact ⟨h, m, List.mem_cons_of_mem _ hm, hmj⟩
      · rintro (h | ⟨h, m, hm, hmj⟩)
        · left; exact h
        · rcases List.mem_cons.mp hm with rfl | hm
          · exact absurd hmj hj
          · right; exact ⟨h, m, hm, hmj⟩

theorem markAll_mono (seats : List Bool) (l : List Int) (j : Nat)
    (h : seats[j]? = some true) : (markAll seats l)[j]? = some true :=
  (markAll_getElem? seats l j).mpr (Or.inl h)

theorem markSeats_eq (seats : List Bool) (l : List Int)
    (h : ∀ n ∈ l, 1 ≤ n ∧ n ≤ (seats.length : Int)) :
    ∃ writes, markSeats seats l = some (markAll seats l, writes) ∧
      writes.map Write.seat = l := by
  induction l generalizing seats with
  | nil => exact ⟨[], rfl, rfl⟩
  | cons n l ih =>
    obtain ⟨h1, h2⟩ := h n (List.mem_cons_self _ _)
    obtain ⟨b, hb, _⟩ := vecGet_in_range seats n h1 h2
    have hl : ∀ m ∈ l, 1 ≤ m ∧ m ≤ ((seats.set (n - 1).toNat true).length : Int) := by
      intro m hm
      rw [List.length_set]
      exact h m (List.mem_cons_of_mem _ hm)
    obtain ⟨writes, hw, hs⟩ := ih (seats.set (n - 1).toNat true) hl
    refine ⟨⟨n, b⟩ :: writes, ?_, ?_⟩
    · rw [markSeats, hb]
      simp only [hw, markAll_cons]
    · simp [hs]

/-! ## The four ways `bookSeats` ends -/

theorem bookSeats_invalid_index (buses : List Bus) (p k : Int) (cin : List Int)
    (h : p < 1 ∨ p > (buses.length : Int)) :
    bookSeats buses p k cin =
      ⟨buses, displayBuses buses ++ [Out.promptBookIndex] ++ [Out.invalidBusIndex], cin, [], [],
        .invalidBusIndex⟩ := by
  unfold bookSeats
  simp only [if_pos h]

theorem bookSeats_invalid_count (buses : List Bus) (p k : Int) (cin : List Int) (bus : Bus)
    (hp : ¬ (p < 1 ∨ p > (buses.length : Int))) (hbus : vecGet buses (p - 1) = some bus)
    (hk : k ≤ 0 ∨ k > (bus.seats.length : Int)) :
    bookSeats buses p k cin =
      ⟨buses, displayBuses buses ++ [Out.promptBookIndex] ++ displaySeatStatus bus
          ++ [Out.promptNumSeats] ++ [Out.invalidNumSeats], cin, [], [], .invalidNumSeats⟩ := by
  unfold bookSeats
  simp only [if_neg hp, hbus, if_pos hk]

theorem bookSeats_stalled (buses : List Bus) (p k : Int) (cin : List Int) (bus : Bus)
    (hp : ¬ (p < 1 ∨ p > (buses.length : Int))) (hbus : vecGet buses (p - 1) = some bus)
    (hk : ¬ (k ≤ 0 ∨ k > (bus.seats.length : Int)))
    (h : (cin.filter (acceptable bus.seats)).length < k.toNat) :
    bookSeats buses p k cin =
      ⟨buses, displayBuses buses ++ [Out.promptBookIndex] ++ displaySeatStatus bus
          ++ [Out.promptNumSeats] ++ [Out.promptSeatNumbers] ++ (readSeats bus.seats cin k.toNat).out,
        (readSeats bus.seats cin k.toNat).cin, (readSeats bus.seats cin k.toNat).seatsToBook, [],
        .stalled⟩ := by
  have hs : (readSeats bus.seats cin k.toNat).status = .stalled := by
    rw [readSeats_status, if_neg (by omega)]
  unfold bookSeats
  simp only [if_neg hp, hbus, if_neg hk, hs]

theorem bookSeats_booked (buses : List Bus) (p k : Int) (cin : List Int) (bus : Bus)
    (hp : ¬ (p < 1 ∨ p > (buses.length : Int))) (hbus : vecGet buses (p - 1) = some bus)
    (hk : ¬ (k ≤ 0 ∨ k > (bus.seats.length : Int)))
    (h : k.toNat ≤ (cin.filter (acceptable bus.seats)).length) :
    ∃ writes, writes.map Write.seat = (readSeats bus.seats cin k.toNat).seatsToBook ∧
      markSeats bus.seats (readSeats bus.seats cin k.toNat).seatsToBook =
        some (markAll bus.seats (readSeats bus.seats cin k.toNat).seatsToBook, writes) ∧
      bookSeats buses p k cin =
        ⟨buses.set (p - 1).toNat
            { bus with seats := markAll bus.seats (readSeats bus.seats cin k.toNat).seatsToBook },
          displayBuses buses ++ [Out.promptBookIndex] ++ displaySeatStatus bus
            ++ [Out.promptNumSeats] ++ [Out.promptSeatNumbers]
            ++ (readSeats bus.seats cin k.toNat).out
            ++ [Out.bookingSuccessful (k * bus.ticketPrice)],
          (readSeats bus.seats cin k.toNat).cin, (readSeats bus.seats cin k.toNat).seatsToBook,
          writes, .booked (k * bus.ticketPrice)⟩ := by
  have hs : (readSeats bus.seats cin k.toNat).status = .filled := by
    rw [readSeats_status, if_pos h]
  obtain ⟨writes, hw, hm⟩ := markSeats_eq bus.seats (readSeats bus.seats cin k.toNat).seatsToBook
    (fun n hn => by
      have := readSeats_mem_range bus.seats cin k.toNat n hn
      exact ⟨this.1, this.2.1⟩)
  refine ⟨writes, hm, hw, ?_⟩
  unfold bookSeats
  simp only [if_neg hp, hbus, if_neg hk, hs, hw]

theorem vecGet_valid_position (buses : List Bus) (p : Int)
    (hp : ¬ (p < 1 ∨ p > (buses.length : Int))) : ∃ bus, vecGet buses (p - 1) = some bus := by
  obtain ⟨bus, hb, _⟩ := vecGet_in_range buses p (by omega) (by omega)
  exact ⟨bus, hb⟩

/-! ## Rejection lines in the output -/

theorem seatLines_count_seatRejected (i : Nat) (seats : List Bool) (n : Int) :
    (seatLines i seats).count (Out.seatRejected n) = 0 := by
  induction seats generalizing i with
  | nil => rfl
  | cons seat rest ih => simp [seatLines, ih]

theorem displayBuses_count_seatRejected (buses : List Bus) (n : Int) :
    (displayBuses buses).count (Out.seatRejected n) = 0 := by
  rw [List.count_eq_zero]
  simp [displayBuses]

theorem displaySeatStatus_count_seatRejected (bus : Bus) (n : Int) :
    (displaySeatStatus bus).count (Out.seatRejected n) = 0 := by
  simp [displaySeatStatus, seatLines_count_seatRejected]

theorem count_seatRejected_map (l : List Int) (n : Int) :
    (l.map Out.seatRejected).count (Out.seatRejected n) = l.count n :=
  List.count_map_of_injective l Out.seatRejected (fun a b h => by injection h) n

/-- What a call on a valid position read: the consumed entries split into the
accepted ones, which fill `seatsToBook`, and the rejected ones, each with its line. -/
theorem bookSeats_reading (buses : List Bus) (p k : Int) (cin : List Int) (bus : Bus)
    (hbus : vecGet buses (p - 1) = some bus) :
    ∃ used, cin = used ++ (bookSeats buses p k cin).cin ∧
      (∀ n, (bookSeats buses p k cin).out.count (Out.seatRejected n) =
        (used.filter (fun m => !acceptable bus.seats m)).count n) ∧
      (bookSeats buses p k cin).seatsToBook = used.filter (acceptable bus.seats) := by
  have hr := vecGet_range buses (p - 1) bus hbus
  have hp : ¬ (p < 1 ∨ p > (buses.length : Int)) := by omega
  by_cases hk : k ≤ 0 ∨ k > (bus.seats.length : Int)
  · rw [bookSeats_invalid_count buses p k cin bus hp hbus hk]
    refine ⟨[], by simp, ?_, by simp⟩
    intro n
    simp [displayBuses_count_seatRejected, displaySeatStatus_count_seatRejected]
  · obtain ⟨used, h1, h2, h3⟩ := readSeats_used bus.seats cin k.toNat
    by_cases hlen : k.toNat ≤ (cin.filter (acceptable bus.seats)).length
    · obtain ⟨writes, _, _, hb⟩ := bookSeats_booked buses p k cin bus hp hbus hk hlen
      rw [hb]
      refine ⟨used, h1, ?_, h3⟩
      intro n
      simp [displayBuses_count_seatRejected, displaySeatStatus_count_seatRejected, h2,
        count_seatRejected_map]
    · rw [bookSeats_stalled buses p k cin bus hp hbus hk (by omega)]
      refine ⟨used, h1, ?_, h3⟩
      intro n
      simp [displayBuses_count_seatRejected, displaySeatStatus_count_seatRejected, h2,
        count_seatRejected_map]

/-! ## Seats only grow -/

theorem seatsGrow_refl (s : List Bool) : seatsGrow s s := ⟨rfl, fun _ h => h⟩

theorem seatsGrow_trans {s t u : List Bool} (h1 : seatsGrow s t) (h2 : seatsGrow t u) :
    seatsGrow s u :=
  ⟨h2.1.trans h1.1, fun j h => h2.2 j (h1.2 j h)⟩

theorem seatsGrow_markAll (seats : List Bool) (l : List Int) : seatsGrow seats (markAll seats l) :=
  ⟨markAll_length seats l, fun j h => markAll_mono seats l j h⟩

theorem catalogGrows_refl (buses : List Bus) : catalogGrows buses buses :=
  fun _ bus h => ⟨bus, h, seatsGrow_refl _⟩

theorem catalogGrows_trans {a b d : List Bus} (h1 : catalogGrows a b) (h2 : catalogGrows b d) :
    catalogGrows a d := by
  intro i bus h
  obtain ⟨bus1, hb1, hg1⟩ := h1 i bus h
  obtain ⟨bus2, hb2, hg2⟩ := h2 i bus1 hb1
  exact ⟨bus2, hb2, seatsGrow_trans hg1 hg2⟩

theorem catalogGrows_set (buses : List Bus) (i : Nat) (bus : Bus) (seats : List Bool)
    (hbus : buses[i]? = some bus) (hg : seatsGrow bus.seats seats) :
    catalogGrows buses (buses.set i { bus with seats := seats }) := by
  intro j b hb
  rw [List.getElem?_set]
  by_cases hij : i = j
  · subst hij
    have hlt : i < buses.length := (List.getElem?_eq_some_iff.mp hbus).1
    rw [hbus] at hb
    cases hb
    exact ⟨{ bus with seats := seats }, by simp [hlt], hg⟩
  · exact ⟨b, by simp [hij, hb], seatsGrow_refl _⟩

theorem bookSeats_catalogGrows (buses : List Bus) (p k : Int) (cin : List Int) :
    catalogGrows buses (bookSeats buses p k cin).buses := by
  by_cases hp : p < 1 ∨ p > (buses.length : Int)
  · rw [bookSeats_invalid_index buses p k cin hp]
    exact catalogGrows_refl buses
  · obtain ⟨bus, hbus⟩ := vecGet_valid_position buses p hp
    by_cases hk : k ≤ 0 ∨ k > (bus.seats.length : Int)
    · rw [bookSeats_invalid_count buses p k cin bus hp hbus hk]
      exact catalogGrows_refl buses
    · by_cases hlen : k.toNat ≤ (cin.filter (acceptable bus.seats)).length
      · obtain ⟨writes, _, _, hb⟩ := bookSeats_booked buses p k cin bus hp hbus hk hlen
        rw [hb]
        exact catalogGrows_set buses _ bus _ ((vecGet_eq_some_iff _ _ _).mp hbus).2
          (seatsGrow_markAll _ _)
      · rw [bookSeats_stalled buses p k cin bus hp hbus hk (by omega)]
        exact catalogGrows_refl buses

theorem addBus_catalogGrows (buses buses' : List Bus) (num dest source : String)
    (totalSeats : Int) (price : Rat) (h : addBus buses num dest source totalSeats price = some buses') :
    catalogGrows buses buses' := by
  unfold addBus at h
  rw [Option.map_eq_some'] at h
  obtain ⟨bus, _, rfl⟩ := h
  intro i b hb
  have hlt : i < buses.length := (List.getElem?_eq_some_iff.mp hb).1
  exact ⟨b, by rw [List.getElem?_append_left hlt]; exact hb, seatsGrow_refl _⟩

theorem viewReservations_buses (buses : List Bus) (p : Int) :
    (viewReservations buses p).buses = buses := by
  unfold viewReservations
  split_ifs
  · rfl
  · split <;> rfl

theorem step_catalogGrows (op : Op) (buses buses' : List Bus) (h : op.step buses = some buses') :
    catalogGrows buses buses' := by
  cases op with
  | addBus num dest source totalSeats price =>
    exact addBus_catalogGrows buses buses' num dest source totalSeats price h
  | displayBuses =>
    simp only [Op.step, Option.some.injEq] at h
    subst h; exact catalogGrows_refl buses
  | searchBuses s d =>
    simp only [Op.step, Option.some.injEq] at h
    subst h; exact catalogGrows_refl buses
  | bookSeats p k cin =>
    simp only [Op.step] at h
    split at h
    · cases h
    · cases h
    · simp only [Option.some.injEq] at h
      subst h; exact bookSeats_catalogGrows buses p k cin
  | viewReservations p =>
    simp only [Op.step] at h
    split at h
    · cases h
    · simp only [Option.some.injEq] at h
      subst h; exact catalogGrows_refl buses

theorem run_catalogGrows (ops : List Op) (buses buses' : List Bus)
    (h : run ops buses = some buses') : catalogGrows buses buses' := by
  induction ops generalizing buses with
  | nil =>
    simp only [run, Option.some.injEq] at h
    subst h; exact catalogGrows_refl buses
  | cons op ops ih =>
    simp only [run] at h
    split at h
    · cases h
    · rename_i mid hmid
      exact catalogGrows_trans (step_catalogGrows op buses mid hmid) (ih mid h)

theorem seatBooked_of_catalogGrows {buses buses' : List Bus} (hg : catalogGrows buses buses')
    (p n : Int) (h : seatBooked buses p n) : seatBooked buses' p n := by
  obtain ⟨bus, hbus, hseat⟩ := h
  rw [vecGet_eq_some_iff] at hbus hseat
  obtain ⟨bus', hbus', hgrow⟩ := hg _ bus hbus.2
  exact ⟨bus', (vecGet_eq_some_iff _ _ _).mpr ⟨hbus.1, hbus'⟩,
    (vecGet_eq_some_iff _ _ _).mpr ⟨hseat.1, hgrow.2 _ hseat.2⟩⟩

/-! ## Inversion of the outcome -/

theorem bookSeats_outcome_booked (buses : List Bus) (p k : Int) (cin : List Int) (cost : Rat)
    (h : (bookSeats buses p k cin).outcome = .booked cost) :
    ∃ bus, ¬ (p < 1 ∨ p > (buses.length : Int)) ∧ vecGet buses (p - 1) = some bus ∧
      ¬ (k ≤ 0 ∨ k > (bus.seats.length : Int)) ∧
      k.toNat ≤ (cin.filter (acceptable bus.seats)).length := by
  by_cases hp : p < 1 ∨ p > (buses.length : Int)
  · rw [bookSeats_invalid_index buses p k cin hp] at h
    cases h
  · obtain ⟨bus, hbus⟩ := vecGet_valid_position buses p hp
    by_cases hk : k ≤ 0 ∨ k > (bus.seats.length : Int)
    · rw [bookSeats_invalid_count buses p k cin bus hp hbus hk] at h
      cases h
    · by_cases hlen : k.toNat ≤ (cin.filter (acceptable bus.seats)).length
      · exact ⟨bus, hp, hbus, hk, hlen⟩
      · rw [bookSeats_stalled buses p k cin bus hp hbus hk (by omega)] at h
        cases h

theorem bookSeats_booked_seat (buses : List Bus) (p k : Int) (cin : List Int) (cost : Rat)
    (n : Int) (h : (bookSeats buses p k cin).outcome = .booked cost)
    (hn : n ∈ (bookSeats buses p k cin).seatsToBook) :
    seatBooked (bookSeats buses p k cin).buses p n := by
  obtain ⟨bus, hp, hbus, hk, hlen⟩ := bookSeats_outcome_booked buses p k cin cost h
  obtain ⟨writes, _, _, hb⟩ := bookSeats_booked buses p k cin bus hp hbus hk hlen
  rw [hb] at hn ⊢
  simp only at hn
  obtain ⟨hn1, hn2, _⟩ := readSeats_mem_range bus.seats cin k.toNat n hn
  have hget := (vecGet_eq_some_iff _ _ _).mp hbus
  have hlt : (p - 1).toNat < buses.length := (List.getElem?_eq_some_iff.mp hget.2).1
  refine ⟨{ bus with seats := markAll bus.seats (readSeats bus.seats cin k.toNat).seatsToBook },
    ?_, ?_⟩
  · rw [vecGet_eq_some_iff]
    exact ⟨hget.1, List.getElem?_set_self hlt⟩
  · rw [vecGet_eq_some_iff]
    refine ⟨by omega, ?_⟩
    rw [markAll_getElem?]
    right
    exact ⟨by omega, n, hn, rfl⟩

theorem not_acceptable_of_booked (seats : List Bool) (n : Int)
    (h : vecGet seats (n - 1) = some true) : acceptable seats n = false := by
  rw [← Bool.not_eq_true, acceptable_iff]
  rw [vecGet_eq_some_iff] at h
  rintro ⟨_, _, h3⟩
  rw [h.2] at h3
  cases h3

theorem not_acceptable_of_range (seats : List Bool) (n : Int)
    (h : n < 1 ∨ n > (seats.length : Int)) : acceptable seats n = false := by
  rw [← Bool.not_eq_true, acceptable_iff]
  omega

/-- An entry that is not acceptable on the selected trip is never accepted, and each
of its consumed occurrences prints one rejection line. -/
theorem bookSeats_rejects (buses : List Bus) (p k : Int) (cin : List Int) (bus : Bus) (n : Int)
    (hbus : vecGet buses (p - 1) = some bus) (hacc : acceptable bus.seats n = false) :
    n ∉ (bookSeats buses p k cin).seatsToBook ∧
      ∀ used, cin = used ++ (bookSeats buses p k cin).cin →
        (bookSeats buses p k cin).out.count (Out.seatRejected n) = used.count n := by
  obtain ⟨used0, h1, h2, h3⟩ := bookSeats_reading buses p k cin bus hbus
  constructor
  · rw [h3, List.mem_filter]
    rintro ⟨_, h⟩
    rw [hacc] at h
    cases h
  · intro used hused
    have heq : used = used0 := by
      have h4 : used ++ (bookSeats buses p k cin).cin = used0 ++ (bookSeats buses p k cin).cin := by
        rw [← hused, ← h1]
      exact List.append_cancel_right h4
    rw [heq, h2 n]
    exact List.count_filter (by simp [hacc])

/-- The catalog, the accepted batch and the outcome depend on the input only through
its acceptable entries. -/
theorem bookSeats_congr (buses : List Bus) (p k : Int) (cin1 cin2 : List Int) (bus : Bus)
    (hbus : vecGet buses (p - 1) = some bus)
    (h : cin1.filter (acceptable bus.seats) = cin2.filter (acceptable bus.seats)) :
    (bookSeats buses p k cin1).buses = (bookSeats buses p k cin2).buses ∧
      (bookSeats buses p k cin1).seatsToBook = (bookSeats buses p k cin2).seatsToBook ∧
      (bookSeats buses p k cin1).outcome = (bookSeats buses p k cin2).outcome := by
  have hr := vecGet_range buses (p - 1) bus hbus
  have hp : ¬ (p < 1 ∨ p > (buses.length : Int)) := by omega
  by_cases hk : k ≤ 0 ∨ k > (bus.seats.length : Int)
  · rw [bookSeats_invalid_count buses p k cin1 bus hp hbus hk,
      bookSeats_invalid_count buses p k cin2 bus hp hbus hk]
    exact ⟨rfl, rfl, rfl⟩
  · have hs : (readSeats bus.seats cin1 k.toNat).seatsToBook =
        (readSeats bus.seats cin2 k.toNat).seatsToBook := by
      rw [readSeats_seatsToBook, readSeats_seatsToBook, h]
    by_cases hlen : k.toNat ≤ (cin1.filter (acceptable bus.seats)).length
    · obtain ⟨w1, _, _, hb1⟩ := bookSeats_booked buses p k cin1 bus hp hbus hk hlen
      obtain ⟨w2, _, _, hb2⟩ := bookSeats_booked buses p k cin2 bus hp hbus hk (h ▸ hlen)
      rw [hb1, hb2]
      simp only [hs, and_self]
    · rw [bookSeats_stalled buses p k cin1 bus hp hbus hk (by omega),
        bookSeats_stalled buses p k cin2 bus hp hbus hk (by rw [← h]; omega)]
      simp only [hs, and_self]

theorem bookSeats_writes (buses : List Bus) (p k : Int) (cin : List Int) :
    (bookSeats buses p k cin).writes = [] ∨
      (bookSeats buses p k cin).writes.map Write.seat = (bookSeats buses p k cin).seatsToBook := by
  by_cases hp : p < 1 ∨ p > (buses.length : Int)
  · rw [bookSeats_invalid_index buses p k cin hp]; exact Or.inl rfl
  · obtain ⟨bus, hbus⟩ := vecGet_valid_position buses p hp
    by_cases hk : k ≤ 0 ∨ k > (bus.seats.length : Int)
    · rw [bookSeats_invalid_count buses p k cin bus hp hbus hk]; exact Or.inl rfl
    · by_cases hlen : k.toNat ≤ (cin.filter (acceptable bus.seats)).length
      · obtain ⟨writes, hw, _, hb⟩ := bookSeats_booked buses p k cin bus hp hbus hk hlen
        rw [hb]; exact Or.inr hw
      · rw [bookSeats_stalled buses p k cin bus hp hbus hk (by omega)]; exact Or.inl rfl

theorem invalidBusIndex_not_mem_seatLines (i : Nat) (seats : List Bool) :
    Out.invalidBusIndex ∉ seatLines i seats := by
  induction seats generalizing i with
  | nil => simp [seatLines]
  | cons seat rest ih => simp [seatLines, ih]

theorem invalidBusIndex_not_mem_readSeats (seats : List Bool) (cin : List Int) (slots : Nat) :
    Out.invalidBusIndex ∉ (readSeats seats cin slots).out := by
  obtain ⟨used, _, h2, _⟩ := readSeats_used seats cin slots
  rw [h2]
  simp

theorem set_self_eq (buses : List Bus) (i : Nat) (bus : Bus) (h : buses[i]? = some bus) :
    buses.set i bus = buses := by
  apply List.ext_getElem?
  intro j
  rw [List.getElem?_set]
  by_cases hij : i = j
  · subst hij
    simp [(List.getElem?_eq_some_iff.mp h).1, h]
  · simp [hij]

/-- On a valid position the call shows the seat status of the trip at index `p - 1`,
judges every entry against that trip's seats and changes at most that trip's seats. -/
theorem bookSeats_valid_position (buses : List Bus) (p k : Int) (cin : List Int) (bus : Bus)
    (hp : ¬ (p < 1 ∨ p > (buses.length : Int))) (hbus : vecGet buses (p - 1) = some bus) :
    (bookSeats buses p k cin).outcome ≠ .invalidBusIndex ∧
      (bookSeats buses p k cin).outcome ≠ .outOfBounds ∧
      Out.invalidBusIndex ∉ (bookSeats buses p k cin).out ∧
      (displayBuses buses ++ [Out.promptBookIndex] ++ displaySeatStatus bus)
        <+: (bookSeats buses p k cin).out ∧
      ∃ seats, (bookSeats buses p k cin).buses =
        buses.set (p - 1).toNat { bus with seats := seats } := by
  have hget := ((vecGet_eq_some_iff _ _ _).mp hbus).2
  by_cases hk : k ≤ 0 ∨ k > (bus.seats.length : Int)
  · rw [bookSeats_invalid_count buses p k cin bus hp hbus hk]
    refine ⟨by simp, by simp, ?_, ⟨[Out.promptNumSeats] ++ [Out.invalidNumSeats], by simp⟩,
      bus.seats, (set_self_eq buses _ bus hget).symm⟩
    simp [displayBuses, displaySeatStatus, invalidBusIndex_not_mem_seatLines]
  · by_cases hlen : k.toNat ≤ (cin.filter (acceptable bus.seats)).length
    · obtain ⟨writes, _, _, hb⟩ := bookSeats_booked buses p k cin bus hp hbus hk hlen
      rw [hb]
      refine ⟨by simp, by simp, ?_, ⟨_, by simp only [List.append_assoc]; rfl⟩, _, rfl⟩
      simp [displayBuses, displaySeatStatus, invalidBusIndex_not_mem_seatLines,
        invalidBusIndex_not_mem_readSeats]
    · rw [bookSeats_stalled buses p k cin bus hp hbus hk (by omega)]
      refine ⟨by simp, by simp, ?_, ⟨_, by simp only [List.append_assoc]; rfl⟩,
        bus.seats, (set_self_eq buses _ bus hget).symm⟩
      simp [displayBuses, displaySeatStatus, invalidBusIndex_not_mem_seatLines,
        invalidBusIndex_not_mem_readSeats]

theorem viewReservations_valid (buses : List Bus) (p : Int) (bus : Bus)
    (hp : ¬ (p < 1 ∨ p > (buses.length : Int))) (hbus : vecGet buses (p - 1) = some bus) :
    viewReservations buses p =
      ⟨buses, displayBuses buses ++ [Out.promptViewIndex]
          ++ [Out.busDetails bus.busNumber bus.destination bus.sourceCity bus.seats.length
            (countBookedSeats bus) bus.ticketPrice] ++ displaySeatStatus bus, .shown⟩ := by
  unfold viewReservations
  simp only [if_neg hp, hbus]

theorem viewReservations_invalid (buses : List Bus) (p : Int)
    (hp : p < 1 ∨ p > (buses.length : Int)) :
    viewReservations buses p =
      ⟨buses, displayBuses buses ++ [Out.promptViewIndex] ++ [Out.invalidBusIndex],
        .invalidBusIndex⟩ := by
  unfold viewReservations
  simp only [if_pos hp]

/-! ## Lemmas on listing and search -/

theorem rowsOf_append (a b : List Out) : rowsOf (a ++ b) = rowsOf a ++ rowsOf b := by
  simp [rowsOf, List.filterMap_append]

theorem rowsOf_map_row (rows : List Row) : rowsOf (rows.map Out.row) = rows := by
  induction rows with
  | nil => rfl
  | cons r rest ih =>
    simp only [rowsOf, List.map_cons, List.filterMap_cons] at ih ⊢
    rw [ih]

theorem rowsOf_displayBuses (buses : List Bus) :
    rowsOf (displayBuses buses) = displayLoop 0 buses := by
  unfold displayBuses
  rw [rowsOf_append, rowsOf_append, rowsOf_map_row]
  simp [rowsOf]

theorem rowsOf_searchBuses (buses : List Bus) (src dest : String) :
    rowsOf (searchBuses buses src dest) = searchRows buses src dest := by
  unfold searchBuses searchRows
  simp only [rowsOf_append, rowsOf_map_row]
  split_ifs <;> simp [rowsOf]

theorem searchLoop_rows (sl dl : String) (i : Nat) (buses : List Bus) :
    (searchLoop sl dl i buses).1 =
      ((buses.enumFrom i).filter (fun ib => routeMatches sl dl ib.2)).map
        (fun ib => mkRow ib.1 ib.2) := by
  induction buses generalizing i with
  | nil => rfl
  | cons bus rest ih =>
    simp only [searchLoop, List.enumFrom_cons]
    by_cases h : routeMatches sl dl bus = true
    · simp [h, ih, List.filter_cons]
    · simp [h, ih, List.filter_cons]

theorem routeMatches_iff (src dest : String) (bus : Bus) :
    routeMatches (toLower (trim src)) (toLower (trim dest)) bus = true ↔
      toLower (trim bus.sourceCity) = toLower (trim src) ∧
        toLower (trim bus.destination) = toLower (trim dest) := by
  simp [routeMatches]

theorem searchLoop_sublist (sl dl : String) (i : Nat) (buses : List Bus) :
    List.Sublist (searchLoop sl dl i buses).1 (displayLoop i buses) := by
  induction buses generalizing i with
  | nil => exact List.Sublist.slnil
  | cons bus rest ih =>
    simp only [searchLoop, displayLoop]
    by_cases h : routeMatches sl dl bus = true
    · simp only [h, if_true]
      exact List.Sublist.cons₂ _ (ih (i + 1))
    · simp only [h]
      exact List.Sublist.cons _ (ih (i + 1))

theorem searchLoop_index_lower (sl dl : String) (i : Nat) (buses : List Bus) (r : Row)
    (h : r ∈ (searchLoop sl dl i buses).1) : i + 1 ≤ r.index := by
  induction buses generalizing i with
  | nil => simp [searchLoop] at h
  | cons bus rest ih =>
    simp only [searchLoop] at h
    by_cases hm : routeMatches sl dl bus = true
    · simp only [hm, if_true, List.mem_cons] at h
      rcases h with rfl | h
      · exact Nat.le_refl _
      · have := ih (i + 1) h
        omega
    · simp only [hm] at h
      have := ih (i + 1) h
      omega

theorem searchLoop_index_increasing (sl dl : String) (i : Nat) (buses : List Bus) :
    ((searchLoop sl dl i buses).1.map Row.index).Pairwise (· < ·) := by
  induction buses generalizing i with
  | nil => simp [searchLoop]
  | cons bus rest ih =>
    simp only [searchLoop]
    by_cases hm : routeMatches sl dl bus = true
    · simp only [hm, if_true, List.map_cons, List.pairwise_cons]
      refine ⟨?_, ih (i + 1)⟩
      intro j hj
      obtain ⟨r, hr, rfl⟩ := List.mem_map.mp hj
      have := searchLoop_index_lower sl dl (i + 1) rest r hr
      show i + 1 < r.index
      omega
    · simp only [hm]
      exact ih (i + 1)

theorem mem_searchRows (buses : List Bus) (src dest : String) (r : Row) :
    r ∈ searchRows buses src dest ↔
      ∃ (i : Nat) (bus : Bus), buses[i]? = some bus ∧ r = mkRow i bus ∧
        toLower (trim bus.sourceCity) = toLower (trim src) ∧
        toLower (trim bus.destination) = toLower (trim dest) := by
  unfold searchRows
  rw [searchLoop_rows, List.mem_map]
  constructor
  · rintro ⟨⟨i, bus⟩, hmem, rfl⟩
    rw [List.mem_filter] at hmem
    exact ⟨i, bus, List.mk_mem_enum_iff_getElem?.mp hmem.1, rfl,
      (routeMatches_iff src dest bus).mp hmem.2⟩
  · rintro ⟨i, bus, hget, rfl, hm⟩
    refine ⟨(i, bus), ?_, rfl⟩
    rw [List.mem_filter]
    exact ⟨List.mk_mem_enum_iff_getElem?.mpr hget, (routeMatches_iff src dest bus).mpr hm⟩

/-! ## Lemmas on `trim` and `toLower` -/

theorem toNat_of_mem_trimSet (c : Char) (h : c ∈ trimSet) :
    c.toNat = 32 ∨ c.toNat = 9 ∨ c.toNat = 10 ∨ c.toNat = 13 := by
  simp only [trimSet, List.mem_cons, List.mem_singleton, List.not_mem_nil, or_false] at h
  rcases h with rfl | rfl | rfl | rfl <;> decide

theorem caseVariant_mem_trimSet {a b : Char} (h : caseVariant a b) :
    a ∈ trimSet ↔ b ∈ trimSet := by
  rcases h with rfl | ⟨h1, h2, h3⟩ | ⟨h1, h2, h3⟩
  · exact Iff.rfl
  · constructor
    · intro hm
      have := toNat_of_mem_trimSet a hm
      omega
    · intro hm
      have := toNat_of_mem_trimSet b hm
      omega
  · constructor
    · intro hm
      have := toNat_of_mem_trimSet a hm
      omega
    · intro hm
      have := toNat_of_mem_trimSet b hm
      omega

theorem tolower_of_upper (a b : Char) (h1 : 65 ≤ a.toNat) (h2 : a.toNat ≤ 90)
    (h3 : b.toNat = a.toNat + 32) : tolower a = tolower b := by
  unfold tolower
  rw [if_pos ⟨h1, h2⟩, if_neg (by omega), ← h3, Char.ofNat_toNat]

theorem caseVariant_tolower {a b : Char} (h : caseVariant a b) : tolower a = tolower b := by
  rcases h with rfl | ⟨h1, h2, h3⟩ | ⟨h1, h2, h3⟩
  · rfl
  · exact tolower_of_upper a b h1 h2 h3
  · exact (tolower_of_upper b a h1 h2 h3).symm

theorem findFirstNotOf_lt (set : List Char) (cs : List Char) (i : Nat)
    (h : findFirstNotOf set cs = some i) : i < cs.length := by
  induction cs generalizing i with
  | nil => cases h
  | cons c cs ih =>
    simp only [findFirstNotOf] at h
    split_ifs at h
    · rw [Option.map_eq_some'] at h
      obtain ⟨j, hj, rfl⟩ := h
      have := ih j hj
      simp only [List.length_cons]
      omega
    · cases h
      simp

theorem findLastNotOf_lt (set : List Char) (cs : List Char) (i : Nat)
    (h : findLastNotOf set cs = some i) : i < cs.length := by
  induction cs generalizing i with
  | nil => cases h
  | cons c cs ih =>
    simp only [findLastNotOf] at h
    cases hl : findLastNotOf set cs with
    | some j =>
      rw [hl] at h
      cases h
      have := ih j hl
      simp only [List.length_cons]
      omega
    | none =>
      rw [hl] at h
      split_ifs at h
      cases h
      simp

theorem findFirstNotOf_append_singleton (set : List Char) (cs : List Char) (c : Char)
    (h : c ∈ set) : findFirstNotOf set (cs ++ [c]) = findFirstNotOf set cs := by
  induction cs with
  | nil => simp [findFirstNotOf, h]
  | cons d cs ih => rw [List.cons_append, findFirstNotOf, findFirstNotOf, ih]

theorem findLastNotOf_append_singleton (set : List Char) (cs : List Char) (c : Char)
    (h : c ∈ set) : findLastNotOf set (cs ++ [c]) = findLastNotOf set cs := by
  induction cs with
  | nil => simp [findLastNotOf, h]
  | cons d cs ih => rw [List.cons_append, findLastNotOf, findLastNotOf, ih]

theorem trimChars_cons (c : Char) (cs : List Char) (h : c ∈ trimSet) :
    trimChars (c :: cs) = trimChars cs := by
  unfold trimChars
  simp only [findFirstNotOf, findLastNotOf, if_pos h]
  cases findFirstNotOf trimSet cs <;> cases findLastNotOf trimSet cs <;> simp

theorem trimChars_append_singleton (cs : List Char) (c : Char) (h : c ∈ trimSet) :
    trimChars (cs ++ [c]) = trimChars cs := by
  unfold trimChars
  rw [findFirstNotOf_append_singleton trimSet cs c h,
    findLastNotOf_append_singleton trimSet cs c h]
  cases hf : findFirstNotOf trimSet cs with
  | none => rfl
  | some start =>
    cases hl : findLastNotOf trimSet cs with
    | none => rfl
    | some e =>
      have h1 := findFirstNotOf_lt trimSet cs start hf
      have h2 := findLastNotOf_lt trimSet cs e hl
      simp only
      rw [List.drop_append_of_le_length (by omega),
        List.take_append_of_le_length (by rw [List.length_drop]; omega)]

theorem trimChars_pad (l core r : List Char) (hl : ∀ c ∈ l, c ∈ trimSet)
    (hr : ∀ c ∈ r, c ∈ trimSet) : trimChars (l ++ core ++ r) = trimChars core := by
  induction r using List.reverseRecOn with
  | nil =>
    rw [List.append_nil]
    induction l with
    | nil => rfl
    | cons c l ih =>
      rw [List.cons_append, trimChars_cons c _ (hl c (List.mem_cons_self _ _))]
      exact ih (fun d hd => hl d (List.mem_cons_of_mem _ hd))
  | append_singleton r c ih =>
    rw [← List.append_assoc, trimChars_append_singleton _ c (hr c (by simp))]
    exact ih (fun d hd => hr d (by simp [hd]))

theorem findFirstNotOf_caseVariant {a b : List Char} (h : List.Forall₂ caseVariant a b) :
    findFirstNotOf trimSet a = findFirstNotOf trimSet b := by
  induction h with
  | nil => rfl
  | cons hab _ ih => simp only [findFirstNotOf, caseVariant_mem_trimSet hab, ih]

theorem findLastNotOf_caseVariant {a b : List Char} (h : List.Forall₂ caseVariant a b) :
    findLastNotOf trimSet a = findLastNotOf trimSet b := by
  induction h with
  | nil => rfl
  | cons hab _ ih => simp only [findLastNotOf, caseVariant_mem_trimSet hab, ih]

theorem map_tolower_caseVariant {a b : List Char} (h : List.Forall₂ caseVariant a b) :
    a.map tolower = b.map tolower := by
  induction h with
  | nil => rfl
  | cons hab _ ih => simp only [List.map_cons, caseVariant_tolower hab, ih]

theorem trimChars_caseVariant {a b : List Char} (h : List.Forall₂ caseVariant a b) :
    (trimChars a).map tolower = (trimChars b).map tolower := by
  unfold trimChars
  rw [findFirstNotOf_caseVariant h, findLastNotOf_caseVariant h]
  cases findFirstNotOf trimSet b with
  | none => rfl
  | some start =>
    cases findLastNotOf trimSet b with
    | none => rfl
    | some e =>
      exact map_tolower_caseVariant (List.forall₂_take _ (List.forall₂_drop _ h))

theorem toLower_trim_queryVariant {q q2 : String} (h : queryVariant q q2) :
    toLower (trim q2) = toLower (trim q) := by
  obtain ⟨l, core, r, l2, core2, r2, hq, hq2, hws, hcore⟩ := h
  unfold toLower trim
  simp only [hq, hq2]
  rw [trimChars_pad l core r (fun c hc => hws c (by simp [hc]))
      (fun c hc => hws c (by simp [hc])),
    trimChars_pad l2 core2 r2 (fun c hc => hws c (by simp [hc]))
      (fun c hc => hws c (by simp [hc])),
    trimChars_caseVariant hcore]

/-! ## Lemmas on the booked count -/

theorem foldl_count_true (seats : List Bool) (start : Nat) :
    seats.foldl (fun count seat => if seat then count + 1 else count) start =
      start + seats.count true := by
  induction seats generalizing start with
  | nil => rfl
  | cons seat rest ih =>
    rw [List.foldl_cons, ih]
    cases seat
    · simp
    · simp
      omega

theorem countBookedSeats_eq_count (bus : Bus) : countBookedSeats bus = bus.seats.count true := by
  unfold countBookedSeats
  rw [foldl_count_true, Nat.zero_add]

theorem seatsGrow_count {s t : List Bool} (h : seatsGrow s t) : s.count true ≤ t.count true := by
  induction s generalizing t with
  | nil => exact Nat.zero_le _
  | cons x xs ih =>
    cases t with
    | nil => exact absurd h.1 (by simp)
    | cons y ys =>
      have htail : seatsGrow xs ys :=
        ⟨by have := h.1; simpa using this, fun j hj => by
          have := h.2 (j + 1) (by simpa using hj)
          simpa using this⟩
      have ihc := ih htail
      cases x
      · rw [List.count_cons_of_ne (by decide)]
        exact Nat.le_trans ihc (List.count_le_count_cons _ _ _)
      · have hy : y = true := by
          have := h.2 0 (by simp)
          simpa using this
        subst hy
        rw [List.count_cons_self, List.count_cons_self]
        omega

theorem catalogGrows_spelled {buses later : List Bus} (hg : catalogGrows buses later) (i : Nat)
    (bus : Bus) (hb : buses[i]? = some bus) :
    ∃ bus2, later[i]? = some bus2 ∧ bus2.seats.length = bus.seats.length ∧
      (∀ j : Nat, bus.seats[j]? = some true → bus2.seats[j]? = some true) ∧
      countBookedSeats bus ≤ countBookedSeats bus2 := by
  obtain ⟨bus2, h2, hgrow⟩ := hg i bus hb
  refine ⟨bus2, h2, hgrow.1, hgrow.2, ?_⟩
  rw [countBookedSeats_eq_count, countBookedSeats_eq_count]
  exact seatsGrow_count hgrow

/-! ## Claims -/

/-- C1 (refuted on a repeated entry): on the catalog of `main`, booking 2 seats on trip 1
with the entries 5, 5 completes, both entries are accepted, and the second store to
seat 5 finds the seat already booked. -/
theorem C1_repeated_entry_stored_on_booked_seat :
    (bookSeats mainCatalog 1 2 [5, 5]).outcome = .booked 60 ∧
      (bookSeats mainCatalog 1 2 [5, 5]).seatsToBook = [5, 5] ∧
      (bookSeats mainCatalog 1 2 [5, 5]).writes = [⟨5, false⟩, ⟨5, true⟩] := by
  refine ⟨?_, by decide, by decide⟩
  have h : (bookSeats mainCatalog 1 2 [5, 5]).outcome = .booked (((2 : Int) : Rat) * 30) := rfl
  rw [h]
  norm_num

/-- C2: once a completed `bookSeats` call on position `p` has accepted seat `n`, then after
any sequence of further calls, every later `bookSeats` call on `p` never accepts `n`,
prints one rejection line for each entry `n` it consumes, and leaves seat `n` booked. -/
theorem C2_booked_seat_rejected_later (buses : List Bus) (p k : Int) (cin : List Int)
    (cost : Rat) (n : Int) (hdone : (bookSeats buses p k cin).outcome = .booked cost)
    (hn : n ∈ (bookSeats buses p k cin).seatsToBook)
    (ops : List Op) (later : List Bus) (hrun : run ops (bookSeats buses p k cin).buses = some later)
    (k2 : Int) (cin2 : List Int) :
    n ∉ (bookSeats later p k2 cin2).seatsToBook ∧
      (∀ used, cin2 = used ++ (bookSeats later p k2 cin2).cin →
        (bookSeats later p k2 cin2).out.count (Out.seatRejected n) = used.count n) ∧
      seatBooked (bookSeats later p k2 cin2).buses p n := by
  have h1 : seatBooked later p n :=
    seatBooked_of_catalogGrows (run_catalogGrows ops _ later hrun) p n
      (bookSeats_booked_seat buses p k cin cost n hdone hn)
  obtain ⟨bus, hbus, hseat⟩ := h1
  have hrej := bookSeats_rejects later p k2 cin2 bus n hbus (not_acceptable_of_booked _ _ hseat)
  exact ⟨hrej.1, hrej.2,
    seatBooked_of_catalogGrows (bookSeats_catalogGrows later p k2 cin2) p n ⟨bus, hbus, hseat⟩⟩

/-- C2 at the scenario of the specification: after `bookSeats(1, [1,2,3])` on the 50-seat
trip, the request `bookSeats(1, [2])` has its entry 2 rejected. -/
theorem C2_booked_seat_rejected_later_witness :
    (2 : Int) ∉ (bookSeats (bookSeats seedCatalog 1 3 [1, 2, 3]).buses 1 1 [2]).seatsToBook ∧
      (∀ used, [2] = used ++ (bookSeats (bookSeats seedCatalog 1 3 [1, 2, 3]).buses 1 1 [2]).cin →
        (bookSeats (bookSeats seedCatalog 1 3 [1, 2, 3]).buses 1 1 [2]).out.count
          (Out.seatRejected 2) = used.count 2) ∧
      seatBooked (bookSeats (bookSeats seedCatalog 1 3 [1, 2, 3]).buses 1 1 [2]).buses 1 2 :=
  C2_booked_seat_rejected_later seedCatalog 1 3 [1, 2, 3] (((3 : Int) : Rat) * 30) 2 rfl
    (by decide) []
    (bookSeats seedCatalog 1 3 [1, 2, 3]).buses rfl 1 [2]

/-- C3: an entry `n` outside `1 .. N` on the selected trip of `N` seats is never accepted,
each consumed occurrence prints one rejection line, no store targets it, and the catalog,
the accepted batch and the outcome are those of the same call without the entries `n`. -/
theorem C3_out_of_range_entry_rejected (buses : List Bus) (p k : Int) (cin : List Int)
    (bus : Bus) (n : Int) (hbus : vecGet buses (p - 1) = some bus)
    (hn : n < 1 ∨ n > (bus.seats.length : Int)) :
    n ∉ (bookSeats buses p k cin).seatsToBook ∧
      (∀ used, cin = used ++ (bookSeats buses p k cin).cin →
        (bookSeats buses p k cin).out.count (Out.seatRejected n) = used.count n) ∧
      (∀ w ∈ (bookSeats buses p k cin).writes, w.seat ≠ n) ∧
      (bookSeats buses p k cin).buses = (bookSeats buses p k (cin.filter (fun m => m ≠ n))).buses ∧
      (bookSeats buses p k cin).seatsToBook =
        (bookSeats buses p k (cin.filter (fun m => m ≠ n))).seatsToBook ∧
      (bookSeats buses p k cin).outcome =
        (bookSeats buses p k (cin.filter (fun m => m ≠ n))).outcome := by
  have hacc := not_acceptable_of_range bus.seats n hn
  have hrej := bookSeats_rejects buses p k cin bus n hbus hacc
  refine ⟨hrej.1, hrej.2, ?_, ?_⟩
  · intro w hw hwn
    rcases bookSeats_writes buses p k cin with h | h
    · rw [h] at hw; cases hw
    · apply hrej.1
      rw [← h, ← hwn]
      exact List.mem_map_of_mem _ hw
  · apply bookSeats_congr buses p k _ _ bus hbus
    rw [List.filter_filter]
    apply List.filter_congr
    intro m _
    by_cases hm : m = n
    · subst hm; simp [hacc]
    · simp [hm]

/-- C3 on the 50-seat trip: the entries 0, 51 and -7 are rejected and seat 4 alone is
booked. -/
theorem C3_out_of_range_entry_rejected_witness :
    ((0 : Int) ∉ (bookSeats seedCatalog 1 1 [0, 51, -7, 4]).seatsToBook ∧
      (51 : Int) ∉ (bookSeats seedCatalog 1 1 [0, 51, -7, 4]).seatsToBook ∧
      (-7 : Int) ∉ (bookSeats seedCatalog 1 1 [0, 51, -7, 4]).seatsToBook) ∧
      (bookSeats seedCatalog 1 1 [0, 51, -7, 4]).seatsToBook = [4] :=
  ⟨⟨(C3_out_of_range_entry_rejected seedCatalog 1 1 [0, 51, -7, 4]
        ⟨"123A", "New York", "Boston", List.replicate 50 false, 30⟩ 0 (by decide) (by decide)).1,
      (C3_out_of_range_entry_rejected seedCatalog 1 1 [0, 51, -7, 4]
        ⟨"123A", "New York", "Boston", List.replicate 50 false, 30⟩ 51 (by decide) (by decide)).1,
      (C3_out_of_range_entry_rejected seedCatalog 1 1 [0, 51, -7, 4]
        ⟨"123A", "New York", "Boston", List.replicate 50 false, 30⟩ (-7) (by decide)
        (by decide)).1⟩,
    by decide⟩

/-- C4: for a position `p < 1` or `p > catalog size`, `bookSeats` and `viewReservations`
end with the invalid-index outcome, print its line, read no seat entry and leave the
catalog as it was; for `1 ≤ p ≤ catalog size` neither reports an invalid index and both
work on the trip at index `p - 1`: they show its details and seat status, and `bookSeats`
changes at most the seats of that trip. -/
theorem C4_position_check (buses : List Bus) (p k : Int) (cin : List Int) :
    ((p < 1 ∨ p > (buses.length : Int)) →
      (bookSeats buses p k cin).outcome = .invalidBusIndex ∧
      (bookSeats buses p k cin).buses = buses ∧
      (bookSeats buses p k cin).cin = cin ∧
      Out.invalidBusIndex ∈ (bookSeats buses p k cin).out ∧
      (viewReservations buses p).outcome = .invalidBusIndex ∧
      (viewReservations buses p).buses = buses ∧
      Out.invalidBusIndex ∈ (viewReservations buses p).out) ∧
    ((1 ≤ p ∧ p ≤ (buses.length : Int)) →
      ∃ bus, buses[(p - 1).toNat]? = some bus ∧
        (bookSeats buses p k cin).outcome ≠ .invalidBusIndex ∧
        (bookSeats buses p k cin).outcome ≠ .outOfBounds ∧
        Out.invalidBusIndex ∉ (bookSeats buses p k cin).out ∧
        (displayBuses buses ++ [Out.promptBookIndex] ++ displaySeatStatus bus)
          <+: (bookSeats buses p k cin).out ∧
        (∃ seats, (bookSeats buses p k cin).buses =
          buses.set (p - 1).toNat { bus with seats := seats }) ∧
        (viewReservations buses p).outcome = .shown ∧
        (viewReservations buses p).buses = buses ∧
        (viewReservations buses p).out =
          displayBuses buses ++ [Out.promptViewIndex]
            ++ [Out.busDetails bus.busNumber bus.destination bus.sourceCity bus.seats.length
              (countBookedSeats bus) bus.ticketPrice] ++ displaySeatStatus bus) := by
  constructor
  · intro hp
    rw [bookSeats_invalid_index buses p k cin hp]
    refine ⟨rfl, rfl, rfl, by simp, ?_⟩
    rw [viewReservations_invalid buses p hp]
    exact ⟨rfl, rfl, by simp⟩
  · intro hv
    have hp : ¬ (p < 1 ∨ p > (buses.length : Int)) := by omega
    obtain ⟨bus, hbus⟩ := vecGet_valid_position buses p hp
    obtain ⟨h1, h2, h3, h4, h5⟩ := bookSeats_valid_position buses p k cin bus hp hbus
    refine ⟨bus, ((vecGet_eq_some_iff _ _ _).mp hbus).2, h1, h2, h3, h4, h5, ?_⟩
    rw [viewReservations_valid buses p bus hp hbus]
    exact ⟨rfl, rfl, rfl⟩

/-- C4 on the catalog of `main`: positions 0, 5 and -3 are invalid for both calls, and
position 4 selects the trip "012D". -/
theorem C4_position_check_witness :
    ((bookSeats mainCatalog 0 1 [1]).outcome = .invalidBusIndex ∧
      (bookSeats mainCatalog 5 1 [1]).buses = mainCatalog ∧
      (viewReservations mainCatalog (-3)).outcome = .invalidBusIndex) ∧
    ∃ bus, mainCatalog[((4 : Int) - 1).toNat]? = some bus ∧
      (bookSeats mainCatalog 4 1 [1]).outcome ≠ .invalidBusIndex ∧
      (viewReservations mainCatalog 4).outcome = .shown :=
  ⟨⟨((C4_position_check mainCatalog 0 1 [1]).1 (by decide)).1,
      ((C4_position_check mainCatalog 5 1 [1]).1 (by decide)).2.1,
      ((C4_position_check mainCatalog (-3) 1 [1]).1 (by decide)).2.2.2.2.1⟩,
    ((C4_position_check mainCatalog 4 1 [1]).2 (by decide)).imp
      (fun _ h => ⟨h.1, h.2.1, h.2.2.2.2.2.2.1⟩)⟩

/-- C5: on a valid position, `bookSeats` ends with the invalid-seat-count outcome exactly
when `k ≤ 0` or `k > seats.length` of the selected trip, and then it has printed that
line, consumed no seat entry, accepted and stored nothing, and left the catalog as it
was. -/
theorem C5_seat_count_check (buses : List Bus) (p k : Int) (cin : List Int) (bus : Bus)
    (hbus : vecGet buses (p - 1) = some bus) :
    ((bookSeats buses p k cin).outcome = .invalidNumSeats ↔
      (k ≤ 0 ∨ k > (bus.seats.length : Int))) ∧
    ((bookSeats buses p k cin).outcome = .invalidNumSeats →
      (bookSeats buses p k cin).cin = cin ∧
      (bookSeats buses p k cin).seatsToBook = [] ∧
      (bookSeats buses p k cin).writes = [] ∧
      (bookSeats buses p k cin).buses = buses ∧
      Out.invalidNumSeats ∈ (bookSeats buses p k cin).out ∧
      Out.promptSeatNumbers ∉ (bookSeats buses p k cin).out) := by
  have hr := vecGet_range buses (p - 1) bus hbus
  have hp : ¬ (p < 1 ∨ p > (buses.length : Int)) := by omega
  by_cases hk : k ≤ 0 ∨ k > (bus.seats.length : Int)
  · rw [bookSeats_invalid_count buses p k cin bus hp hbus hk]
    refine ⟨⟨fun _ => hk, fun _ => rfl⟩, fun _ => ⟨rfl, rfl, rfl, rfl, by simp, ?_⟩⟩
    have hsl : ∀ i seats, Out.promptSeatNumbers ∉ seatLines i seats := by
      intro i seats
      induction seats generalizing i with
      | nil => simp [seatLines]
      | cons seat rest ih => simp [seatLines, ih]
    simp [displayBuses, displaySeatStatus, hsl]
  · have hne : (bookSeats buses p k cin).outcome ≠ .invalidNumSeats := by
      by_cases hlen : k.toNat ≤ (cin.filter (acceptable bus.seats)).length
      · obtain ⟨writes, _, _, hb⟩ := bookSeats_booked buses p k cin bus hp hbus hk hlen
        rw [hb]; simp
      · rw [bookSeats_stalled buses p k cin bus hp hbus hk (by omega)]; simp
    exact ⟨⟨fun h => absurd h hne, fun h => absurd h hk⟩, fun h => absurd h hne⟩

/-- C5 on the 50-seat trip: the counts 0, -1 and 51 are refused, the count 50 is not. -/
theorem C5_seat_count_check_witness :
    (bookSeats seedCatalog 1 0 [1]).outcome = .invalidNumSeats ∧
      (bookSeats seedCatalog 1 (-1) [1]).outcome = .invalidNumSeats ∧
      (bookSeats seedCatalog 1 51 [1]).outcome = .invalidNumSeats ∧
      (bookSeats seedCatalog 1 51 [1]).cin = [1] ∧
      (bookSeats seedCatalog 1 50 [1]).outcome ≠ .invalidNumSeats :=
  ⟨(C5_seat_count_check seedCatalog 1 0 [1]
      ⟨"123A", "New York", "Boston", List.replicate 50 false, 30⟩ (by decide)).1.mpr (by decide),
    (C5_seat_count_check seedCatalog 1 (-1) [1]
      ⟨"123A", "New York", "Boston", List.replicate 50 false, 30⟩ (by decide)).1.mpr (by decide),
    (C5_seat_count_check seedCatalog 1 51 [1]
      ⟨"123A", "New York", "Boston", List.replicate 50 false, 30⟩ (by decide)).1.mpr (by decide),
    ((C5_seat_count_check seedCatalog 1 51 [1]
      ⟨"123A", "New York", "Boston", List.replicate 50 false, 30⟩ (by decide)).2
        (by decide)).1,
    fun h => absurd ((C5_seat_count_check seedCatalog 1 50 [1]
      ⟨"123A", "New York", "Boston", List.replicate 50 false, 30⟩ (by decide)).1.mp h)
        (by decide)⟩

/-- C8: the rows printed by `searchBuses` form an order-preserving sub-sequence of the
rows printed by `displayBuses` on the same catalog; their positions are strictly
increasing 1-based catalog positions, and each row is the listing's row of the trip at
that position.  On the catalog of `main` the search for "Boston" to "New York" gives
"123A" at position 1 and "012D" at position 4. -/
theorem C8_search_rows_sublist_of_listing :
    (∀ (buses : List Bus) (src dest : String),
      List.Sublist (rowsOf (searchBuses buses src dest)) (rowsOf (displayBuses buses)) ∧
      ((rowsOf (searchBuses buses src dest)).map Row.index).Pairwise (· < ·) ∧
      ∀ r ∈ rowsOf (searchBuses buses src dest),
        1 ≤ r.index ∧ r ∈ rowsOf (displayBuses buses) ∧
        ∃ bus, buses[r.index - 1]? = some bus ∧ r = mkRow (r.index - 1) bus) ∧
    (rowsOf (searchBuses mainCatalog "Boston" "New York")).map
        (fun r => (r.index, r.busNumber)) = [(1, "123A"), (4, "012D")] := by
  refine ⟨?_, by decide⟩
  intro buses src dest
  rw [rowsOf_searchBuses, rowsOf_displayBuses]
  have hsub : List.Sublist (searchRows buses src dest) (displayLoop 0 buses) :=
    searchLoop_sublist _ _ 0 buses
  refine ⟨hsub, searchLoop_index_increasing _ _ 0 buses, ?_⟩
  intro r hr
  obtain ⟨i, bus, hget, rfl, _⟩ := (mem_searchRows buses src dest r).mp hr
  exact ⟨Nat.succ_pos i, hsub.subset hr, bus, hget, rfl⟩

/-- C8 on the catalog of `main`: the two rows of the search for "Boston" to "New York"
are rows of the listing. -/
theorem C8_search_rows_sublist_of_listing_witness :
    List.Sublist (rowsOf (searchBuses mainCatalog "Boston" "New York"))
      (rowsOf (displayBuses mainCatalog)) :=
  (C8_search_rows_sublist_of_listing.1 mainCatalog "Boston" "New York").1

/-- C7 (as stated, refuted): a trailing form feed is whitespace that `trim` does not
strip, and `::tolower` leaves the letter `É` as it is.  On the catalog of `main` the
search for "Boston" to "New York" gives the rows at positions 1 and 4, and the same
search with a form feed after "Boston" gives none; on a catalog whose only trip leaves
from "Montréal", the query "Montréal" gives its row and the query "MONTRÉAL" gives
none. -/
theorem C7_form_feed_or_accented_letter_changes_rows :
    ((searchRows mainCatalog "Boston" "New York").map Row.index = [1, 4] ∧
      searchRows mainCatalog "Boston\x0c" "New York" = []) ∧
    ((searchRows [⟨"77M", "Boston", "Montréal", [false, false], 12⟩] "Montréal" "Boston").map
        Row.index = [1] ∧
      searchRows [⟨"77M", "Boston", "Montréal", [false, false], 12⟩] "MONTRÉAL" "Boston" = []) := by
  decide

/-- C7 (amended): a query that differs from another only in leading and trailing
characters among space, tab, line feed and carriage return, and in the case of its
ASCII letters, gives the same rows in the same order, for the source and for the
destination; and a trip whose
`sourceCity` is "Boston" is returned for each of the source queries " boston ",
"BOSTON" and "Boston" when the destination query matches. -/
theorem C7_search_ignores_case_and_blanks (buses : List Bus) (src src2 dest dest2 : String)
    (hs : queryVariant src src2) (hd : queryVariant dest dest2) :
    searchRows buses src2 dest2 = searchRows buses src dest ∧
      rowsOf (searchBuses buses src2 dest2) = rowsOf (searchBuses buses src dest) ∧
      ∀ (i : Nat) (bus : Bus) (q : String), buses[i]? = some bus → bus.sourceCity = "Boston" →
        q ∈ [" boston ", "BOSTON", "Boston"] →
        toLower (trim bus.destination) = toLower (trim dest) →
        mkRow i bus ∈ searchRows buses q dest := by
  have heq : searchRows buses src2 dest2 = searchRows buses src dest := by
    unfold searchRows
    rw [toLower_trim_queryVariant hs, toLower_trim_queryVariant hd]
  refine ⟨heq, by rw [rowsOf_searchBuses, rowsOf_searchBuses, heq], ?_⟩
  intro i bus q hget hsrc hq hdest
  rw [mem_searchRows]
  refine ⟨i, bus, hget, rfl, ?_, hdest⟩
  rw [hsrc]
  simp only [List.mem_cons, List.mem_singleton, List.not_mem_nil, or_false] at hq
  rcases hq with rfl | rfl | rfl <;> decide

/-- C7 on the catalog of `main`: the queries " boston " and "  NEW YORK " give the rows
of "Boston" and "New York". -/
theorem C7_search_ignores_case_and_blanks_witness :
    searchRows mainCatalog " boston " "  NEW YORK " = searchRows mainCatalog "Boston" "New York" :=
  (C7_search_ignores_case_and_blanks mainCatalog "Boston" " boston " "New York" "  NEW YORK "
    ⟨[], "Boston".data, [], [' '], "boston".data, [' '], rfl, rfl, by decide,
      by simp [caseVariant]⟩
    ⟨[], "New York".data, [], [' ', ' '], "NEW YORK".data, [' '], rfl, rfl, by decide,
      by simp [caseVariant]⟩).1

/-- C9 (refuted on a repeated entry): on the catalog of `main`, where no seat is booked,
booking 2 seats on trip 1 with the entries 5, 5 completes and the booked count of
trip 1 is 1 afterwards, not 2. -/
theorem C9_repeated_entry_counted_once :
    (bookSeats mainCatalog 1 2 [5, 5]).outcome = .booked 60 ∧
      mainCatalog.map countBookedSeats = [0, 0, 0, 0] ∧
      (bookSeats mainCatalog 1 2 [5, 5]).buses.map countBookedSeats = [1, 0, 0, 0] := by
  refine ⟨?_, by decide, by decide⟩
  have h : (bookSeats mainCatalog 1 2 [5, 5]).outcome = .booked (((2 : Int) : Rat) * 30) := rfl
  rw [h]
  norm_num

/-- C10: over every sequence of calls (`addBus`, `displayBuses`, `searchBuses`, `bookSeats`,
`viewReservations`, each with any input) that return, every trip stays at its index,
keeps its number of seats, every seat booked before is booked after, and the booked
count does not decrease; the same holds for the catalog left by a single `bookSeats`
call whatever its outcome. -/
theorem C10_seats_only_grow (ops : List Op) (buses later : List Bus)
    (h : run ops buses = some later) (i : Nat) (bus : Bus) (hb : buses[i]? = some bus) :
    (∃ bus2, later[i]? = some bus2 ∧ bus2.seats.length = bus.seats.length ∧
      (∀ j : Nat, bus.seats[j]? = some true → bus2.seats[j]? = some true) ∧
      countBookedSeats bus ≤ countBookedSeats bus2) ∧
    ∀ (p k : Int) (cin : List Int),
      ∃ bus3, (bookSeats buses p k cin).buses[i]? = some bus3 ∧
        bus3.seats.length = bus.seats.length ∧
        (∀ j : Nat, bus.seats[j]? = some true → bus3.seats[j]? = some true) ∧
        countBookedSeats bus ≤ countBookedSeats bus3 :=
  ⟨catalogGrows_spelled (run_catalogGrows ops buses later h) i bus hb,
    fun p k cin => catalogGrows_spelled (bookSeats_catalogGrows buses p k cin) i bus hb⟩

/-- C10 on the catalog of `main`: after booking seats 1, 2, 3 on trip 1, listing,
adding a trip, booking seat 2 of trip 2 and viewing trip 1, the first trip is still at
index 0 with at least its earlier booked count. -/
theorem C10_seats_only_grow_witness :
    ∃ later, run [Op.bookSeats 1 3 [1, 2, 3], Op.displayBuses, Op.addBus "345E" "Miami" "Tampa" 20 15,
        Op.bookSeats 2 1 [2], Op.searchBuses "Boston" "New York", Op.viewReservations 1]
        mainCatalog = some later ∧
      ∃ bus2, later[0]? = some bus2 ∧
        countBookedSeats ⟨"123A", "New York", "Boston", List.replicate 50 false, 30⟩
          ≤ countBookedSeats bus2 :=
  ⟨_, rfl,
    (C10_seats_only_grow [Op.bookSeats 1 3 [1, 2, 3], Op.displayBuses,
        Op.addBus "345E" "Miami" "Tampa" 20 15, Op.bookSeats 2 1 [2],
        Op.searchBuses "Boston" "New York", Op.viewReservations 1] mainCatalog _ rfl 0
        ⟨"123A", "New York", "Boston", List.replicate 50 false, 30⟩ rfl).1.imp
      (fun _ hx => ⟨hx.1, hx.2.2.2⟩)⟩

/-! ## Lemmas on the frame of `bookSeats` and on `addBus` -/

theorem displayLoop_append (i : Nat) (a b : List Bus) :
    displayLoop i (a ++ b) = displayLoop i a ++ displayLoop (i + a.length) b := by
  induction a generalizing i with
  | nil => rfl
  | cons bus rest ih =>
    show mkRow i bus :: displayLoop (i + 1) (rest ++ b) =
      (mkRow i bus :: displayLoop (i + 1) rest) ++ displayLoop (i + (rest.length + 1)) b
    rw [ih, List.cons_append, show i + 1 + rest.length = i + (rest.length + 1) by omega]

/-- A call of `bookSeats` keeps every trip at its index, with all its fields but `seats`
and with the length of `seats`; a trip at another index than `p - 1` is kept whole. -/
theorem bookSeats_frame (buses : List Bus) (p k : Int) (cin : List Int) :
    (bookSeats buses p k cin).buses.length = buses.length ∧
      ∀ (i : Nat) (bus : Bus), buses[i]? = some bus →
        ∃ bus2, (bookSeats buses p k cin).buses[i]? = some bus2 ∧
          bus2.busNumber = bus.busNumber ∧ bus2.sourceCity = bus.sourceCity ∧
          bus2.destination = bus.destination ∧ bus2.ticketPrice = bus.ticketPrice ∧
          bus2.seats.length = bus.seats.length ∧ ((i : Int) ≠ p - 1 → bus2 = bus) := by
  have hsame : ∀ (i : Nat) (bus : Bus), buses[i]? = some bus →
      ∃ bus2, buses[i]? = some bus2 ∧
        bus2.busNumber = bus.busNumber ∧ bus2.sourceCity = bus.sourceCity ∧
        bus2.destination = bus.destination ∧ bus2.ticketPrice = bus.ticketPrice ∧
        bus2.seats.length = bus.seats.length ∧ ((i : Int) ≠ p - 1 → bus2 = bus) :=
    fun i bus h => ⟨bus, h, rfl, rfl, rfl, rfl, rfl, fun _ => rfl⟩
  by_cases hp : p < 1 ∨ p > (buses.length : Int)
  · rw [bookSeats_invalid_index buses p k cin hp]
    exact ⟨rfl, hsame⟩
  · obtain ⟨sel, hsel⟩ := vecGet_valid_position buses p hp
    by_cases hk : k ≤ 0 ∨ k > (sel.seats.length : Int)
    · rw [bookSeats_invalid_count buses p k cin sel hp hsel hk]
      exact ⟨rfl, hsame⟩
    · by_cases hlen : k.toNat ≤ (cin.filter (acceptable sel.seats)).length
      · obtain ⟨writes, _, _, hb⟩ := bookSeats_booked buses p k cin sel hp hsel hk hlen
        rw [hb]
        refine ⟨List.length_set _ _ _, ?_⟩
        intro i bus hget
        have hselget := ((vecGet_eq_some_iff _ _ _).mp hsel).2
        show ∃ bus2, (buses.set (p - 1).toNat _)[i]? = some bus2 ∧ _
        rw [List.getElem?_set]
        by_cases hi : (p - 1).toNat = i
        · subst hi
          rw [hselget] at hget
          cases hget
          have hlt : (p - 1).toNat < buses.length := (List.getElem?_eq_some_iff.mp hselget).1
          rw [if_pos rfl, if_pos hlt]
          refine ⟨_, rfl, rfl, rfl, rfl, rfl, markAll_length _ _, ?_⟩
          intro hne
          exact absurd (by omega) hne
        · rw [if_neg hi]
          exact ⟨bus, hget, rfl, rfl, rfl, rfl, rfl, fun _ => rfl⟩
      · rw [bookSeats_stalled buses p k cin sel hp hsel hk (by omega)]
        exact ⟨rfl, hsame⟩

/-! ## Claims, continued -/

/-- C11: for every trip, `countBookedSeats` returns exactly the number of `true` entries of
its seats, and that number lies between 0 and the number of seats. -/
theorem C11_countBooked_is_number_of_true (bus : Bus) :
    countBookedSeats bus = bus.seats.count true ∧
      countBookedSeats bus = (bus.seats.filter (fun seat => seat)).length ∧
      0 ≤ countBookedSeats bus ∧ countBookedSeats bus ≤ bus.seats.length := by
  have h := countBookedSeats_eq_count bus
  refine ⟨h, ?_, Nat.zero_le _, ?_⟩
  · rw [h, List.count_eq_countP, List.countP_eq_length_filter]
    congr 1
    apply List.filter_congr
    intro seat _
    cases seat <;> rfl
  · rw [h]
    exact List.count_le_length _ _

/-- C12: a completed booking reports the cost `numSeats × ticketPrice` of the selected
trip, in the outcome and as the last line printed, and the catalog afterwards is the
catalog before with only the seats of the selected trip replaced: no field holds the
cost. -/
theorem C12_cost_is_count_times_price (buses : List Bus) (p k : Int) (cin : List Int)
    (cost : Rat) (h : (bookSeats buses p k cin).outcome = .booked cost) :
    ∃ bus, vecGet buses (p - 1) = some bus ∧ cost = (k : Rat) * bus.ticketPrice ∧
      (bookSeats buses p k cin).out.getLast? = some (Out.bookingSuccessful (k * bus.ticketPrice)) ∧
      (bookSeats buses p k cin).buses = buses.set (p - 1).toNat
        { bus with seats := markAll bus.seats (bookSeats buses p k cin).seatsToBook } := by
  obtain ⟨bus, hp, hbus, hk, hlen⟩ := bookSeats_outcome_booked buses p k cin cost h
  obtain ⟨writes, _, _, hb⟩ := bookSeats_booked buses p k cin bus hp hbus hk hlen
  rw [hb] at h ⊢
  simp only [Outcome.booked.injEq] at h
  exact ⟨bus, hbus, h.symm, List.getLast?_concat _, rfl⟩

/-- C12 at the scenario of the specification: 3 seats at price 30 cost 90. -/
theorem C12_cost_is_count_times_price_witness :
    ∃ bus, vecGet seedCatalog ((1 : Int) - 1) = some bus ∧
      (90 : Rat) = ((3 : Int) : Rat) * bus.ticketPrice ∧
      (bookSeats seedCatalog 1 3 [1, 2, 3]).out.getLast? =
        some (Out.bookingSuccessful ((3 : Int) * bus.ticketPrice)) ∧
      (bookSeats seedCatalog 1 3 [1, 2, 3]).buses = seedCatalog.set ((1 : Int) - 1).toNat
        { bus with seats := markAll bus.seats (bookSeats seedCatalog 1 3 [1, 2, 3]).seatsToBook } :=
  C12_cost_is_count_times_price seedCatalog 1 3 [1, 2, 3] 90 (by
    have h : (bookSeats seedCatalog 1 3 [1, 2, 3]).outcome = .booked (((3 : Int) : Rat) * 30) :=
      rfl
    rw [h]
    norm_num)

/-- C13: with `totalSeats > 0`, `addBus` returns the catalog with one more trip: every
earlier trip is at its index, the listing keeps its rows and gains one at the last
position, and the new trip has the given fields and `totalSeats` seats, all unbooked. -/
theorem C13_addBus_appends_fresh_trip (buses : List Bus) (num dest source : String)
    (totalSeats : Int) (price : Rat) (h : 0 < totalSeats) :
    ∃ later bus, addBus buses num dest source totalSeats price = some later ∧
      later.length = buses.length + 1 ∧
      (∀ (i : Nat) (b : Bus), buses[i]? = some b → later[i]? = some b) ∧
      later[buses.length]? = some bus ∧
      rowsOf (displayBuses later) = rowsOf (displayBuses buses) ++ [mkRow buses.length bus] ∧
      bus.busNumber = num ∧ bus.destination = dest ∧ bus.sourceCity = source ∧
      bus.ticketPrice = price ∧ ((bus.seats.length : Nat) : Int) = totalSeats ∧
      (∀ seat ∈ bus.seats, seat = false) ∧ countBookedSeats bus = 0 := by
  refine ⟨buses ++ [⟨num, dest, source, List.replicate totalSeats.toNat false, price⟩],
    ⟨num, dest, source, List.replicate totalSeats.toNat false, price⟩, ?_, by simp, ?_, by simp,
    ?_, rfl, rfl, rfl, rfl, ?_, ?_, ?_⟩
  · unfold addBus Bus.Bus
    rw [if_neg (by omega)]
    rfl
  · intro i b hb
    rw [List.getElem?_append_left (List.getElem?_eq_some_iff.mp hb).1]
    exact hb
  · rw [rowsOf_displayBuses, rowsOf_displayBuses, displayLoop_append]
    simp [displayLoop]
  · simp only [List.length_replicate]
    omega
  · intro seat hs
    exact List.eq_of_mem_replicate hs
  · rw [countBookedSeats_eq_count, List.count_eq_zero]
    intro hmem
    cases List.eq_of_mem_replicate hmem

/-- C13 on the catalog of `main`: adding a 20-seat trip gives a fifth trip. -/
theorem C13_addBus_appends_fresh_trip_witness :
    ∃ later bus, addBus mainCatalog "345E" "Miami" "Tampa" 20 15 = some later ∧
      later.length = mainCatalog.length + 1 ∧
      (∀ (i : Nat) (b : Bus), mainCatalog[i]? = some b → later[i]? = some b) ∧
      later[mainCatalog.length]? = some bus ∧
      rowsOf (displayBuses later) =
        rowsOf (displayBuses mainCatalog) ++ [mkRow mainCatalog.length bus] ∧
      bus.busNumber = "345E" ∧ bus.destination = "Miami" ∧ bus.sourceCity = "Tampa" ∧
      bus.ticketPrice = 15 ∧ ((bus.seats.length : Nat) : Int) = 20 ∧
      (∀ seat ∈ bus.seats, seat = false) ∧ countBookedSeats bus = 0 :=
  C13_addBus_appends_fresh_trip mainCatalog "345E" "Miami" "Tampa" 20 15 (by decide)

/-- C14: whatever its input, `bookSeats` keeps the length and order of the catalog, every
trip at another index than `p - 1` whole, and of every trip the `busNumber`,
`sourceCity`, `destination`, `ticketPrice` and the length of `seats`. -/
theorem C14_bookSeats_frame (buses : List Bus) (p k : Int) (cin : List Int) :
    (bookSeats buses p k cin).buses.length = buses.length ∧
      ∀ (i : Nat) (bus : Bus), buses[i]? = some bus →
        ∃ bus2, (bookSeats buses p k cin).buses[i]? = some bus2 ∧
          bus2.busNumber = bus.busNumber ∧ bus2.sourceCity = bus.sourceCity ∧
          bus2.destination = bus.destination ∧ bus2.ticketPrice = bus.ticketPrice ∧
          bus2.seats.length = bus.seats.length ∧ ((i : Int) ≠ p - 1 → bus2 = bus) :=
  bookSeats_frame buses p k cin

/-- C14 on the catalog of `main`: booking seats 1, 2, 3 on trip 1 keeps four trips and
leaves trip 2 as it was. -/
theorem C14_bookSeats_frame_witness :
    (bookSeats mainCatalog 1 3 [1, 2, 3]).buses.length = mainCatalog.length ∧
      ∃ bus2, (bookSeats mainCatalog 1 3 [1, 2, 3]).buses[1]? = some bus2 ∧
        bus2 = ⟨"456B", "Los Angeles", "San Francisco", List.replicate 40 false, 25⟩ :=
  ⟨(C14_bookSeats_frame mainCatalog 1 3 [1, 2, 3]).1,
    ((C14_bookSeats_frame mainCatalog 1 3 [1, 2, 3]).2 1
      ⟨"456B", "Los Angeles", "San Francisco", List.replicate 40 false, 25⟩ rfl).imp
      (fun _ hx => ⟨hx.1, hx.2.2.2.2.2.2 (by decide)⟩)⟩

/-! ## Lemmas on read-only calls -/

theorem viewReservations_outcome (buses : List Bus) (p : Int) :
    (viewReservations buses p).outcome ≠ .outOfBounds := by
  by_cases hp : p < 1 ∨ p > (buses.length : Int)
  · rw [viewReservations_invalid buses p hp]
    simp
  · obtain ⟨bus, hbus⟩ := vecGet_valid_position buses p hp
    rw [viewReservations_valid buses p bus hp hbus]
    simp

theorem step_viewReservations (buses : List Bus) (p : Int) :
    Op.step (.viewReservations p) buses = some buses := by
  have h := viewReservations_outcome buses p
  cases hv : (viewReservations buses p).outcome with
  | outOfBounds => exact absurd hv h
  | invalidBusIndex => simp only [Op.step, hv]
  | shown => simp only [Op.step, hv]

theorem step_of_isRead (op : Op) (buses : List Bus) (h : op.isRead = true) :
    op.step buses = some buses := by
  cases op with
  | addBus num dest source totalSeats price => cases h
  | displayBuses => rfl
  | searchBuses src dest => rfl
  | bookSeats p k cin => cases h
  | viewReservations p => exact step_viewReservations buses p

theorem run_of_isRead (reads : List Op) (buses : List Bus)
    (h : ∀ op ∈ reads, op.isRead = true) : run reads buses = some buses := by
  induction reads with
  | nil => rfl
  | cons op rest ih =>
    simp only [run, step_of_isRead op buses (h op (List.mem_cons_self _ _))]
    exact ih (fun o ho => h o (List.mem_cons_of_mem _ ho))

/-! ## Lemmas on the order of the rejection lines -/

theorem rejectedOf_append (a b : List Out) : rejectedOf (a ++ b) = rejectedOf a ++ rejectedOf b := by
  simp [rejectedOf, List.filterMap_append]

theorem rejectedOf_map_seatRejected (l : List Int) : rejectedOf (l.map Out.seatRejected) = l := by
  induction l with
  | nil => rfl
  | cons n rest ih =>
    simp only [rejectedOf, List.map_cons, List.filterMap_cons] at ih ⊢
    rw [ih]

theorem rejectedOf_map_row (rows : List Row) : rejectedOf (rows.map Out.row) = [] := by
  induction rows with
  | nil => rfl
  | cons r rest ih =>
    simp only [rejectedOf, List.map_cons, List.filterMap_cons] at ih ⊢
    rw [ih]

theorem rejectedOf_seatLines (i : Nat) (seats : List Bool) : rejectedOf (seatLines i seats) = [] := by
  induction seats generalizing i with
  | nil => rfl
  | cons seat rest ih =>
    have h := ih (i + 1)
    simp only [rejectedOf, seatLines, List.filterMap_cons] at h ⊢
    rw [h]

theorem rejectedOf_displayBuses (buses : List Bus) : rejectedOf (displayBuses buses) = [] := by
  unfold displayBuses
  rw [rejectedOf_append, rejectedOf_append, rejectedOf_map_row]
  simp [rejectedOf]

theorem rejectedOf_displaySeatStatus (bus : Bus) : rejectedOf (displaySeatStatus bus) = [] := by
  unfold displaySeatStatus
  rw [rejectedOf_append, rejectedOf_append, rejectedOf_seatLines]
  simp [rejectedOf]

/-- On a valid position with a valid count, the consumed entries split, in order, into
the accepted ones (`seatsToBook`) and the rejected ones (the rejection lines). -/
theorem bookSeats_reading_ordered (buses : List Bus) (p k : Int) (cin : List Int) (bus : Bus)
    (hbus : vecGet buses (p - 1) = some bus) (hk : ¬ (k ≤ 0 ∨ k > (bus.seats.length : Int))) :
    ∃ used, cin = used ++ (bookSeats buses p k cin).cin ∧
      (bookSeats buses p k cin).seatsToBook = used.filter (acceptable bus.seats) ∧
      rejectedOf (bookSeats buses p k cin).out =
        used.filter (fun n => !acceptable bus.seats n) := by
  have hr := vecGet_range buses (p - 1) bus hbus
  have hp : ¬ (p < 1 ∨ p > (buses.length : Int)) := by omega
  obtain ⟨used, h1, h2, h3⟩ := readSeats_used bus.seats cin k.toNat
  by_cases hlen : k.toNat ≤ (cin.filter (acceptable bus.seats)).length
  · obtain ⟨writes, _, _, hb⟩ := bookSeats_booked buses p k cin bus hp hbus hk hlen
    rw [hb]
    refine ⟨used, h1, h3, ?_⟩
    simp only [rejectedOf_append, rejectedOf_displayBuses, rejectedOf_displaySeatStatus, h2,
      rejectedOf_map_seatRejected]
    simp [rejectedOf]
  · rw [bookSeats_stalled buses p k cin bus hp hbus hk (by omega)]
    refine ⟨used, h1, h3, ?_⟩
    simp only [rejectedOf_append, rejectedOf_displayBuses, rejectedOf_displaySeatStatus, h2,
      rejectedOf_map_seatRejected]
    simp [rejectedOf]

/-- After a completed booking, seat `n` of the selected trip is booked exactly when it
was booked before or `n` is in the accepted batch. -/
theorem seatBooked_after_booking (buses : List Bus) (p k : Int) (cin : List Int) (bus : Bus)
    (hbus : vecGet buses (p - 1) = some bus) (hk : ¬ (k ≤ 0 ∨ k > (bus.seats.length : Int)))
    (hlen : k.toNat ≤ (cin.filter (acceptable bus.seats)).length) (n : Int) :
    seatBooked (bookSeats buses p k cin).buses p n ↔
      seatBooked buses p n ∨ n ∈ (bookSeats buses p k cin).seatsToBook := by
  have hr := vecGet_range buses (p - 1) bus hbus
  have hp : ¬ (p < 1 ∨ p > (buses.length : Int)) := by omega
  obtain ⟨writes, _, _, hb⟩ := bookSeats_booked buses p k cin bus hp hbus hk hlen
  rw [hb]
  simp only
  have hget := (vecGet_eq_some_iff _ _ _).mp hbus
  have hlt : (p - 1).toNat < buses.length := (List.getElem?_eq_some_iff.mp hget.2).1
  have hnew : vecGet (buses.set (p - 1).toNat
      { bus with seats := markAll bus.seats (readSeats bus.seats cin k.toNat).seatsToBook })
      (p - 1) =
      some { bus with seats := markAll bus.seats (readSeats bus.seats cin k.toNat).seatsToBook } := by
    rw [vecGet_eq_some_iff]
    exact ⟨hget.1, List.getElem?_set_self hlt⟩
  have hold : seatBooked buses p n ↔ vecGet bus.seats (n - 1) = some true := by
    constructor
    · rintro ⟨b, hb1, hb2⟩
      rw [hbus] at hb1
      cases hb1
      exact hb2
    · intro h
      exact ⟨bus, hbus, h⟩
  have hafter : seatBooked (buses.set (p - 1).toNat
      { bus with seats := markAll bus.seats (readSeats bus.seats cin k.toNat).seatsToBook }) p n ↔
      vecGet (markAll bus.seats (readSeats bus.seats cin k.toNat).seatsToBook) (n - 1)
        = some true := by
    constructor
    · rintro ⟨b, hb1, hb2⟩
      rw [hnew] at hb1
      cases hb1
      exact hb2
    · intro h
      exact ⟨_, hnew, h⟩
  rw [hold, hafter, vecGet_eq_some_iff, vecGet_eq_some_iff, markAll_getElem?]
  constructor
  · rintro ⟨h0, h | ⟨hlt2, m, hm, hmn⟩⟩
    · exact Or.inl ⟨h0, h⟩
    · right
      have hmr := readSeats_mem_range bus.seats cin k.toNat m hm
      have : m = n := by omega
      rw [← this]
      exact hm
  · rintro (⟨h0, h⟩ | hm)
    · exact ⟨h0, Or.inl h⟩
    · have hmr := readSeats_mem_range bus.seats cin k.toNat n hm
      exact ⟨by omega, Or.inr ⟨by omega, n, hm, rfl⟩⟩

/-! ## Lemmas on free seats and distinct entries -/

theorem free_plus_booked (bus : Bus) : freeSeats bus + countBookedSeats bus = bus.seats.length := by
  rw [countBookedSeats_eq_count]
  unfold freeSeats
  generalize bus.seats = seats
  induction seats with
  | nil => rfl
  | cons seat rest ih =>
    cases seat
    · rw [List.count_cons_self, List.count_cons_of_ne (by decide), List.length_cons]
      omega
    · rw [List.count_cons_self, List.count_cons_of_ne (by decide), List.length_cons]
      omega

theorem length_filter_enum_false (seats : List Bool) :
    (seats.enum.filter (fun ib => ib.2 == false)).length = seats.count false := by
  have h1 : ((seats.enum.filter (fun ib => ib.2 == false)).map Prod.snd).length =
      (seats.filter (fun b => b == false)).length := by
    have h2 := List.filter_map (p := fun b : Bool => b == false) Prod.snd seats.enum
    rw [List.enum_map_snd] at h2
    rw [h2]
    rfl
  rw [List.length_map] at h1
  rw [h1, List.count_eq_countP, List.countP_eq_length_filter]

/-- Pairwise distinct acceptable seat numbers are at most as many as the unbooked seats. -/
theorem nodup_acceptable_length (seats : List Bool) (l : List Int) (hnd : l.Nodup)
    (hacc : ∀ n ∈ l, acceptable seats n = true) : l.length ≤ seats.count false := by
  have hmapnd : (l.map (fun n : Int => ((n - 1).toNat, false))).Nodup := by
    apply List.Nodup.map_on _ hnd
    intro x hx y hy hxy
    have h1 := (acceptable_iff seats x).mp (hacc x hx)
    have h2 := (acceptable_iff seats y).mp (hacc y hy)
    have h3 : (x - 1).toNat = (y - 1).toNat := congrArg Prod.fst hxy
    omega
  have hsub : l.map (fun n : Int => ((n - 1).toNat, false)) ⊆
      seats.enum.filter (fun ib => ib.2 == false) := by
    intro x hx
    obtain ⟨n, hn, rfl⟩ := List.mem_map.mp hx
    have h1 := (acceptable_iff seats n).mp (hacc n hn)
    rw [List.mem_filter]
    exact ⟨List.mk_mem_enum_iff_getElem?.mpr h1.2.2, rfl⟩
  have hle := (List.subperm_of_subset hmapnd hsub).length_le
  rw [List.length_map, length_filter_enum_false] at hle
  exact hle

theorem invalidNumSeats_iff (buses : List Bus) (p k : Int) (cin : List Int) (bus : Bus)
    (hp : ¬ (p < 1 ∨ p > (buses.length : Int))) (hbus : vecGet buses (p - 1) = some bus) :
    (bookSeats buses p k cin).outcome = .invalidNumSeats ↔
      (k ≤ 0 ∨ k > (bus.seats.length : Int)) := by
  by_cases hk : k ≤ 0 ∨ k > (bus.seats.length : Int)
  · rw [bookSeats_invalid_count buses p k cin bus hp hbus hk]
    exact ⟨fun _ => hk, fun _ => rfl⟩
  · by_cases hlen : k.toNat ≤ (cin.filter (acceptable bus.seats)).length
    · obtain ⟨writes, _, _, hb⟩ := bookSeats_booked buses p k cin bus hp hbus hk hlen
      rw [hb]
      exact ⟨fun h => (by cases h), fun h => absurd h hk⟩
    · rw [bookSeats_stalled buses p k cin bus hp hbus hk (by omega)]
      exact ⟨fun h => (by cases h), fun h => absurd h hk⟩

theorem outsideGuard_iff (w : Nat) (x : Int) (size : Nat) (hw : 31 ≤ w)
    (hlo : -(2 : Int) ^ 31 ≤ x) (hhi : x < (2 : Int) ^ 31) :
    outsideGuard w x size = true ↔ (x < 1 ∨ x > (size : Int)) := by
  unfold outsideGuard toSizeT
  simp only [Bool.or_eq_true, decide_eq_true_eq]
  by_cases hx : x < 1
  · simp [hx]
  · have hpow : (2 : Int) ^ 31 ≤ (2 : Int) ^ w := pow_le_pow_right₀ (by norm_num) hw
    have hmod : x % (2 : Int) ^ w = x := Int.emod_eq_of_lt (by omega) (by omega)
    rw [hmod]
    constructor
    · rintro (h | h)
      · exact Or.inl h
      · right; omega
    · rintro (h | h)
      · exact Or.inl h
      · right; omega

/-- C15: `displayBuses`, `searchBuses` with any query and `viewReservations` with any
position, valid or not, return with the catalog as it was; so after any sequence of
such reads the catalog is the same, and a listing, a search or a seat-status read gives
the same output as before it. -/
theorem C15_reads_leave_catalog (buses : List Bus) (src dest : String) (p : Int)
    (reads : List Op) (hreads : ∀ op ∈ reads, op.isRead = true) :
    Op.step .displayBuses buses = some buses ∧
      Op.step (.searchBuses src dest) buses = some buses ∧
      Op.step (.viewReservations p) buses = some buses ∧
      (viewReservations buses p).buses = buses ∧
      run reads buses = some buses ∧
      ∀ later, run reads buses = some later →
        displayBuses later = displayBuses buses ∧
        searchBuses later src dest = searchBuses buses src dest ∧
        viewReservations later p = viewReservations buses p := by
  have hrun := run_of_isRead reads buses hreads
  refine ⟨rfl, rfl, step_viewReservations buses p, viewReservations_buses buses p, hrun, ?_⟩
  intro later hlater
  rw [hrun] at hlater
  cases hlater
  exact ⟨rfl, rfl, rfl⟩

/-- C15 on the catalog of `main`: a listing, a view of trip 1, a view of the invalid
position 9 and a search leave the catalog as it was. -/
theorem C15_reads_leave_catalog_witness :
    run [Op.displayBuses, Op.viewReservations 1, Op.viewReservations 9,
      Op.searchBuses "Boston" "New York"] mainCatalog = some mainCatalog :=
  (C15_reads_leave_catalog mainCatalog "Boston" "New York" 1
    [Op.displayBuses, Op.viewReservations 1, Op.viewReservations 9,
      Op.searchBuses "Boston" "New York"] (by decide)).2.2.2.2.1

/-- C16: on a valid position with a valid count `k`, an entry is accepted exactly when it
lies in `1 .. seats.length` and its seat is unbooked in the seats as they were before
the call; the consumed entries split in order into the accepted ones, which fill the
slots, and the rejected ones, which only print their line; the accepted batch is the
first `k` acceptable entries of the input in input order; the call completes exactly
when the input holds `k` acceptable entries, and then a seat is booked afterwards
exactly when it was booked before or its number is in the accepted batch; otherwise the
re-prompt never ends and the catalog is as it was. -/
theorem C16_reprompt_semantics (buses : List Bus) (p k : Int) (cin : List Int) (bus : Bus)
    (hbus : vecGet buses (p - 1) = some bus) (hk : 0 < k ∧ k ≤ (bus.seats.length : Int)) :
    (∀ n, acceptable bus.seats n = true ↔
      (1 ≤ n ∧ n ≤ (bus.seats.length : Int) ∧ vecGet bus.seats (n - 1) = some false)) ∧
    (∃ used, cin = used ++ (bookSeats buses p k cin).cin ∧
      (bookSeats buses p k cin).seatsToBook = used.filter (acceptable bus.seats) ∧
      rejectedOf (bookSeats buses p k cin).out = used.filter (fun n => !acceptable bus.seats n)) ∧
    (bookSeats buses p k cin).seatsToBook = (cin.filter (acceptable bus.seats)).take k.toNat ∧
    ((bookSeats buses p k cin).outcome = .booked (k * bus.ticketPrice) ↔
      k.toNat ≤ (cin.filter (acceptable bus.seats)).length) ∧
    (k.toNat ≤ (cin.filter (acceptable bus.seats)).length →
      ((bookSeats buses p k cin).seatsToBook.length : Int) = k ∧
      ∀ n, seatBooked (bookSeats buses p k cin).buses p n ↔
        seatBooked buses p n ∨ n ∈ (bookSeats buses p k cin).seatsToBook) ∧
    ((cin.filter (acceptable bus.seats)).length < k.toNat →
      (bookSeats buses p k cin).outcome = .stalled ∧ (bookSeats buses p k cin).buses = buses) := by
  have hr := vecGet_range buses (p - 1) bus hbus
  have hp : ¬ (p < 1 ∨ p > (buses.length : Int)) := by omega
  have hk2 : ¬ (k ≤ 0 ∨ k > (bus.seats.length : Int)) := by omega
  have hstb : (bookSeats buses p k cin).seatsToBook =
      (cin.filter (acceptable bus.seats)).take k.toNat := by
    by_cases hlen : k.toNat ≤ (cin.filter (acceptable bus.seats)).length
    · obtain ⟨writes, _, _, hb⟩ := bookSeats_booked buses p k cin bus hp hbus hk2 hlen
      rw [hb]
      exact readSeats_seatsToBook _ _ _
    · rw [bookSeats_stalled buses p k cin bus hp hbus hk2 (by omega)]
      exact readSeats_seatsToBook _ _ _
  refine ⟨?_, bookSeats_reading_ordered buses p k cin bus hbus hk2, hstb, ?_, ?_, ?_⟩
  · intro n
    rw [acceptable_iff, vecGet_eq_some_iff]
    constructor
    · rintro ⟨h1, h2, h3⟩
      exact ⟨h1, h2, by omega, h3⟩
    · rintro ⟨h1, h2, _, h3⟩
      exact ⟨h1, h2, h3⟩
  · constructor
    · intro hb
      exact (bookSeats_outcome_booked buses p k cin _ hb).elim (fun b2 hx => by
        have heq : b2 = bus := by
          have := hx.2.1
          rw [hbus] at this
          cases this
          rfl
        rw [heq] at hx
        exact hx.2.2.2)
    · intro hlen
      obtain ⟨writes, _, _, hb⟩ := bookSeats_booked buses p k cin bus hp hbus hk2 hlen
      rw [hb]
  · intro hlen
    refine ⟨?_, seatBooked_after_booking buses p k cin bus hbus hk2 hlen⟩
    rw [hstb, List.length_take]
    omega
  · intro hlen
    rw [bookSeats_stalled buses p k cin bus hp hbus hk2 hlen]
    exact ⟨rfl, rfl⟩

/-- C16 on the 50-seat trip: with `k = 2` and the entries 0, 7, 7, 51, 9 the batch is
7, 7 and the entries left unread are 51, 9. -/
theorem C16_reprompt_semantics_witness :
    (bookSeats seedCatalog 1 2 [0, 7, 7, 51, 9]).seatsToBook =
        ([0, 7, 7, 51, 9].filter
          (acceptable (List.replicate 50 false))).take ((2 : Int).toNat) ∧
      (bookSeats seedCatalog 1 2 [0, 7, 7, 51, 9]).seatsToBook = [7, 7] ∧
      (bookSeats seedCatalog 1 2 [0, 7, 7, 51, 9]).cin = [51, 9] :=
  ⟨(C16_reprompt_semantics seedCatalog 1 2 [0, 7, 7, 51, 9]
      ⟨"123A", "New York", "Boston", List.replicate 50 false, 30⟩ (by decide)
      (by decide)).2.2.1,
    by decide, by decide⟩

/-- C17: for every integer input, zero and negative values included, no container access
of `bookSeats` or `viewReservations` is out of range: neither call ends in `outOfBounds`,
the validation loop never reads outside the seats, on a position inside
`1 .. buses.size()` the trip `buses[busIndex - 1]` exists, every accepted entry and every
seat number stored to by the marking loop lies in `1 .. seats.size()`, and for every
`int` the guard evaluated with the conversion to `size_t` agrees with the guard over
the integers. -/
theorem C17_accesses_in_bounds (buses : List Bus) (p k : Int) (cin : List Int) :
    (bookSeats buses p k cin).outcome ≠ .outOfBounds ∧
    (viewReservations buses p).outcome ≠ .outOfBounds ∧
    (∀ (seats : List Bool) (input : List Int) (slots : Nat),
      (readSeats seats input slots).status ≠ .outOfBounds) ∧
    (¬ (p < 1 ∨ p > (buses.length : Int)) → ∃ bus, vecGet buses (p - 1) = some bus) ∧
    (∀ bus, vecGet buses (p - 1) = some bus →
      (∀ n ∈ (bookSeats buses p k cin).seatsToBook, 1 ≤ n ∧ n ≤ (bus.seats.length : Int)) ∧
      (∀ w ∈ (bookSeats buses p k cin).writes, 1 ≤ w.seat ∧ w.seat ≤ (bus.seats.length : Int)) ∧
      (markSeats bus.seats (bookSeats buses p k cin).seatsToBook).isSome = true) ∧
    (∀ (w : Nat) (x : Int) (size : Nat), 31 ≤ w → -(2 : Int) ^ 31 ≤ x → x < (2 : Int) ^ 31 →
      (outsideGuard w x size = true ↔ (x < 1 ∨ x > (size : Int)))) := by
  refine ⟨?_, viewReservations_outcome buses p, ?_, vecGet_valid_position buses p, ?_,
    fun w x size hw hlo hhi => outsideGuard_iff w x size hw hlo hhi⟩
  · by_cases hp : p < 1 ∨ p > (buses.length : Int)
    · rw [bookSeats_invalid_index buses p k cin hp]
      simp
    · obtain ⟨bus, hbus⟩ := vecGet_valid_position buses p hp
      exact (bookSeats_valid_position buses p k cin bus hp hbus).2.1
  · intro seats input slots
    rw [readSeats_status]
    split_ifs <;> simp
  · intro bus hbus
    obtain ⟨used, _, _, hstb⟩ := bookSeats_reading buses p k cin bus hbus
    have hrange : ∀ n ∈ (bookSeats buses p k cin).seatsToBook,
        1 ≤ n ∧ n ≤ (bus.seats.length : Int) := by
      intro n hn
      rw [hstb, List.mem_filter] at hn
      have := (acceptable_iff bus.seats n).mp hn.2
      exact ⟨this.1, this.2.1⟩
    refine ⟨hrange, ?_, ?_⟩
    · intro w hw
      rcases bookSeats_writes buses p k cin with h | h
      · rw [h] at hw
        cases hw
      · exact hrange w.seat (by rw [← h]; exact List.mem_map_of_mem _ hw)
    · obtain ⟨writes, hm, _⟩ := markSeats_eq bus.seats _ hrange
      rw [hm]
      rfl

/-- C17 on the catalog of `main`: with a 64-bit `size_t` the guard rejects the indices
-1 and 0 against size 4 although -1 converts to a huge unsigned value, and accepts 4. -/
theorem C17_accesses_in_bounds_witness :
    (outsideGuard 64 (-1) 4 = true ↔ ((-1 : Int) < 1 ∨ (-1 : Int) > ((4 : Nat) : Int))) ∧
      (outsideGuard 64 0 4 = true ↔ ((0 : Int) < 1 ∨ (0 : Int) > ((4 : Nat) : Int))) ∧
      (outsideGuard 64 4 4 = true ↔ ((4 : Int) < 1 ∨ (4 : Int) > ((4 : Nat) : Int))) ∧
      ∃ bus, vecGet mainCatalog ((4 : Int) - 1) = some bus :=
  ⟨(C17_accesses_in_bounds mainCatalog (-1) 1 [1]).2.2.2.2.2 64 (-1) 4 (by decide)
      (by norm_num) (by norm_num),
    (C17_accesses_in_bounds mainCatalog 0 1 [1]).2.2.2.2.2 64 0 4 (by decide)
      (by norm_num) (by norm_num),
    (C17_accesses_in_bounds mainCatalog 4 1 [1]).2.2.2.2.2 64 4 4 (by decide)
      (by norm_num) (by norm_num),
    (C17_accesses_in_bounds mainCatalog 4 1 [1]).2.2.2.1 (by decide)⟩

/-- C18: the count check compares `k` with the total number of seats, so a `k` above the
number of free seats and at most `seats.length` passes it; then every completed booking
has a repeated seat number in its accepted batch, and an input of pairwise distinct
seat numbers never completes; whenever a booking completes with pairwise distinct
accepted seat numbers, `k` is at most the number of seats free before the call. -/
theorem C18_count_check_uses_total_seats (buses : List Bus) (p k : Int) (cin : List Int)
    (bus : Bus) (hbus : vecGet buses (p - 1) = some bus) :
    freeSeats bus + countBookedSeats bus = bus.seats.length ∧
    (((freeSeats bus : Int) < k ∧ k ≤ (bus.seats.length : Int)) →
      (bookSeats buses p k cin).outcome ≠ .invalidNumSeats ∧
      (∀ cost, (bookSeats buses p k cin).outcome = .booked cost →
        ¬ (bookSeats buses p k cin).seatsToBook.Nodup) ∧
      (cin.Nodup → (bookSeats buses p k cin).outcome = .stalled)) ∧
    (∀ cost, (bookSeats buses p k cin).outcome = .booked cost →
      (bookSeats buses p k cin).seatsToBook.Nodup → k ≤ (freeSeats bus : Int)) := by
  have hr := vecGet_range buses (p - 1) bus hbus
  have hp : ¬ (p < 1 ∨ p > (buses.length : Int)) := by omega
  have hkey : ∀ cost, (bookSeats buses p k cin).outcome = .booked cost →
      (bookSeats buses p k cin).seatsToBook.Nodup → k ≤ (freeSeats bus : Int) := by
    intro cost hb hnd
    obtain ⟨b2, _, hb2, hk, hlen⟩ := bookSeats_outcome_booked buses p k cin cost hb
    rw [hbus] at hb2
    cases hb2
    obtain ⟨writes, _, _, heq⟩ := bookSeats_booked buses p k cin bus hp hbus hk hlen
    rw [heq] at hnd
    simp only at hnd
    have hle := nodup_acceptable_length bus.seats _ hnd (fun n hn => by
      rw [acceptable_iff]
      exact readSeats_mem_range bus.seats cin k.toNat n hn)
    rw [readSeats_seatsToBook, List.length_take] at hle
    unfold freeSeats
    omega
  refine ⟨free_plus_booked bus, ?_, hkey⟩
  rintro ⟨hfree, hk⟩
  have hk2 : ¬ (k ≤ 0 ∨ k > (bus.seats.length : Int)) := by omega
  have hnot : ∀ cost, (bookSeats buses p k cin).outcome = .booked cost →
      ¬ (bookSeats buses p k cin).seatsToBook.Nodup := by
    intro cost hb hnd
    have := hkey cost hb hnd
    omega
  refine ⟨?_, hnot, ?_⟩
  · intro h
    have := ((invalidNumSeats_iff buses p k cin bus hp hbus).mp h)
    exact hk2 this
  · intro hcin
    by_cases hlen : k.toNat ≤ (cin.filter (acceptable bus.seats)).length
    · obtain ⟨writes, _, _, heq⟩ := bookSeats_booked buses p k cin bus hp hbus hk2 hlen
      exfalso
      apply hnot (k * bus.ticketPrice) (by rw [heq])
      rw [heq]
      simp only
      rw [readSeats_seatsToBook]
      exact ((List.take_sublist _ _).trans (List.filter_sublist _)).nodup hcin
    · rw [bookSeats_stalled buses p k cin bus hp hbus hk2 (by omega)]

/-- C18 on a trip with 3 seats of which seat 1 is booked: `k = 3` passes the count check,
the distinct entries 1, 2, 3 do not complete the booking, and the entries 2, 3, 3 do. -/
theorem C18_count_check_uses_total_seats_witness :
    (bookSeats [⟨"9Z", "A", "B", [true, false, false], 10⟩] 1 3 [1, 2, 3]).outcome
        ≠ .invalidNumSeats ∧
      (bookSeats [⟨"9Z", "A", "B", [true, false, false], 10⟩] 1 3 [1, 2, 3]).outcome = .stalled ∧
      (bookSeats [⟨"9Z", "A", "B", [true, false, false], 10⟩] 1 3 [2, 3, 3]).seatsToBook
        = [2, 3, 3] :=
  ⟨((C18_count_check_uses_total_seats [⟨"9Z", "A", "B", [true, false, false], 10⟩] 1 3 [1, 2, 3]
      ⟨"9Z", "A", "B", [true, false, false], 10⟩ (by decide)).2.1 (by decide)).1,
    ((C18_count_check_uses_total_seats [⟨"9Z", "A", "B", [true, false, false], 10⟩] 1 3 [1, 2, 3]
      ⟨"9Z", "A", "B", [true, false, false], 10⟩ (by decide)).2.1 (by decide)).2.2 (by decide),
    by decide⟩

end BusReservation
